import Mathlib

/-!
# Verification of the offline data-sync core (azure-mobile-apps-js-client)

A shallow embedding of the repository's local-store / sync-context code:

* `src/sdk/src/Platforms/cordova/MobileServiceSqliteStore.js` — the SQLite
  local table store (`defineTable`, `upsert` / `_upsert`, `lookup`, `del`,
  `_deleteUsingQuery`, `_deleteIds`, `read`, `executeBatch`);
* `src/sdk/src/sync/MobileServiceSyncContext.js` — the sync context
  (`initialize`, `insert`, `update`, `del`, `lookup`);
* `src/unnamed/part_001` (MobileServiceTable) — the ETag/version helpers
  `getEtagFromVersion` and `getVersionFromEtag`.

Promise-returning JS functions become `Except String`-valued Lean functions:
a rejected promise is `Except.error`, and a rejected operation yields no new
store state (the SQLite transaction that wraps every mutating operation rolls
back, so the pre-state is what remains observable).  The single-writer task
queues (`taskRunner`, not under `src/`) are modelled, following the spec's
design note §9, as immediate sequential execution.  JS record objects become
association lists from column name to a scalar `Value`; JS `null`/`undefined`
both map to `Value.vNull` (`Option.none` where the code distinguishes an
absent argument).

Helpers that the repository requires but that are not under `src/`
(`Utilities/Extensions.isValidId`, `storeHelper`, `sqliteSerializer`,
`sync/operations.js`) are modelled from the spec; each such definition says so
in its doc comment.
-/

set_option maxRecDepth 4096

namespace AzureSync

/-- Decidable equality on promise outcomes, so that witnesses can be settled
by evaluation. -/
instance {ε α : Type} [DecidableEq ε] [DecidableEq α] : DecidableEq (Except ε α) := fun x y =>
  match x, y with
  | Except.error e, Except.error f =>
    if h : e = f then Decidable.isTrue (by rw [h])
    else Decidable.isFalse (by intro hc; cases hc; exact h rfl)
  | Except.error _, Except.ok _ => Decidable.isFalse (by intro hc; cases hc)
  | Except.ok _, Except.error _ => Decidable.isFalse (by intro hc; cases hc)
  | Except.ok a, Except.ok b =>
    if h : a = b then Decidable.isTrue (by rw [h])
    else Decidable.isFalse (by intro hc; cases hc; exact h rfl)

/-! ## ETag / version helpers (src/unnamed/part_001, lines 684–698)

`getEtagFromVersion(version)`: `version.replace(/\"/g, '\\\"')` escapes every
double quote with a backslash, and the result is wrapped in double quotes.

`getVersionFromEtag(etag)`: if the string has length > 1 and both its first
and last characters are `"`, they are stripped; then `replace(/\\\"/g, '"')`
rewrites every (leftmost-first, non-overlapping) backslash-quote pair to a
bare quote.  We model JS strings as `List Char` and the global regex replace
as left-to-right structural recursion, which is exactly the order in which
the JS engine rewrites non-overlapping matches. -/

/-- `version.replace(/\"/g, '\\\"')`: escape each `"` as `\"`. -/
def escapeQuotes : List Char → List Char
  | [] => []
  | c :: cs => if c = '"' then '\\' :: '"' :: escapeQuotes cs else c :: escapeQuotes cs

/-- `result.replace(/\\\"/g, '"')`: rewrite each leftmost `\"` pair to `"`. -/
def unescapeQuotes : List Char → List Char
  | [] => []
  | [c] => [c]
  | c :: d :: cs =>
    if c = '\\' ∧ d = '"' then '"' :: unescapeQuotes cs
    else c :: unescapeQuotes (d :: cs)

/-- `getEtagFromVersion` of MobileServiceTable: escape internal quotes, then
wrap the whole string in double quotes. -/
def getEtagFromVersion (version : List Char) : List Char :=
  '"' :: (escapeQuotes version ++ ['"'])

/-- `getVersionFromEtag` of MobileServiceTable: strip one surrounding pair of
double quotes when the string has length > 1 and starts and ends with `"`,
then unescape internal `\"` pairs. -/
def getVersionFromEtag (etag : List Char) : List Char :=
  let result :=
    if 1 < etag.length ∧ etag.head? = some '"' ∧ etag.getLast? = some '"' then
      (etag.drop 1).dropLast
    else etag
  unescapeQuotes result

/-! ## Scalar values and records

A JS record is a map from column name to a scalar; the serializer
(`sqliteSerializer`, not under `src/`) crosses the typed/untyped boundary.
Modelled from the spec (§2, §9): we take the store's scalar domain to be the
value domain itself, so serialization and deserialization are the identity
and records are association lists of `Value`s.  `Value.vNull` stands for both
JS `null` and `undefined` where the code treats them alike (`_.isNull`). -/

inductive Value where
  | vNull : Value
  | vStr : String → Value
  | vInt : Int → Value
  | vBool : Bool → Value
deriving DecidableEq, Repr

abbrev Record := List (String × Value)

/-- Keyed access into an association list (JS object property read / SQL row
and catalog access share this shape): the value at the first entry named `k`. -/
def assocGet {β : Type} (l : List (String × β)) (k : String) : Option β :=
  (l.find? (fun p => p.fst == k)).map Prod.snd

/-- Keyed update: replace every entry named `k` in place when one exists,
append the entry otherwise. -/
def assocSet {β : Type} (l : List (String × β)) (k : String) (v : β) :
    List (String × β) :=
  if (l.find? (fun p => p.fst == k)).isSome then
    l.map (fun p => if p.fst == k then (k, v) else p)
  else l ++ [(k, v)]

/-- The first property of the record named `k`, if any (JS property access). -/
def getProp (r : Record) (k : String) : Option Value :=
  assocGet r k

/-- JS property access where a missing property reads as `undefined`
(modelled as `Value.vNull`). -/
def rowVal (r : Record) (k : String) : Value :=
  (getProp r k).getD Value.vNull

/-- Modelled from the spec: `storeHelper.getId` (not under `src/`) reads the
record's `id` property (§3: every record has a primary key field named `id`). -/
def getId (r : Record) : Value := rowVal r "id"

/-- Modelled from the spec: `storeHelper.isId` (not under `src/`); the primary
key column is the one named `id` (`idPropertyName` in the store source). -/
def isIdCol (c : String) : Bool := c == "id"

def isCtrlChar (c : Char) : Bool :=
  c.toNat < 32 || (127 ≤ c.toNat && c.toNat ≤ 159)

def isForbiddenIdChar (c : Char) : Bool :=
  c == '"' || c == '+' || c == '?' || c == '\\' || c == '/' || c == '`' || isCtrlChar c

/-- Modelled from the spec: `Extensions.isValidId` (not under `src/`), from the
record identifier rules of §6: a string id is non-empty, is not `.` or `..`,
and contains no `"`, `+`, `?`, `\`, `/`, backtick or control character; an
integer id is positive.  `null`/`undefined` and booleans are not valid ids. -/
def isValidId : Value → Bool
  | Value.vStr s =>
    !(s == "") && !(s == ".") && !(s == "..") &&
    s.data.all (fun c => !(isForbiddenIdChar c))
  | Value.vInt n => decide (0 < n)
  | _ => false

/-! Case-insensitive comparison: SQLite's NOCASE collation folds the 26 ASCII
upper-case letters to lower case and compares exactly otherwise. -/

def asciiLower (c : Char) : Char :=
  if 65 ≤ c.toNat && c.toNat ≤ 90 then Char.ofNat (c.toNat + 32) else c

def lowerStr (s : String) : String := String.mk (s.data.map asciiLower)

def eqNoCase (a b : String) : Bool := lowerStr a == lowerStr b

/-- `id = ? COLLATE NOCASE`: NOCASE folding applies to TEXT values; NULL
compares equal to nothing; other values compare exactly. -/
def valueEqNoCase : Value → Value → Bool
  | Value.vStr a, Value.vStr b => eqNoCase a b
  | Value.vNull, _ => false
  | _, Value.vNull => false
  | a, b => a == b

/-- SQL `=` (and `IN`) comparison: NULL equals nothing, otherwise exact. -/
def sqlEq : Value → Value → Bool
  | Value.vNull, _ => false
  | _, Value.vNull => false
  | a, b => a == b

/-! ## Tables and the store state

A physical SQLite table: its columns (name and declared type, in creation
order) and its rows.  `pkColumn` records which column was declared
`PRIMARY KEY` by `createTable` (always the `id` column, see below).
The store also keeps the in-memory table-definition registry
(`tableDefinitions` in MobileServiceSqliteStore). -/

structure Table where
  columns : List (String × String)
  pkColumn : Option String
  rows : List Record
deriving DecidableEq, Repr

abbrev TableDefs := List (String × List (String × String))

structure Store where
  tables : List (String × Table)
  defs : TableDefs
deriving DecidableEq, Repr

def getTable (ts : List (String × Table)) (name : String) : Option Table :=
  assocGet ts name

def setTable (ts : List (String × Table)) (name : String) (t : Table) :
    List (String × Table) :=
  assocSet ts name t

/-- `storeHelper.getTableDefinition` — modelled from the spec (not under
`src/`): the registry maps a table name to its column definitions. -/
def getTableDefinition (ds : TableDefs) (name : String) :
    Option (List (String × String)) :=
  assocGet ds name

/-- `storeHelper.addTableDefinition` — modelled from the spec (not under
`src/`): record (or replace) the definition for `name` in the registry. -/
def addTableDefinition (ds : TableDefs) (name : String)
    (cd : List (String × String)) : TableDefs :=
  assocSet ds name cd

def hasColumn (t : Table) (c : String) : Bool :=
  t.columns.any (fun p => p.fst == c)

/-- Set property `k` of a record to `v`: replace it in place if present,
append it otherwise (the effect of SQL `SET k = v` on a sparse row). -/
def setProp (r : Record) (k : String) (v : Value) : Record :=
  assocSet r k v

def setProps (r : Record) (sets : List (String × Value)) : Record :=
  sets.foldl (fun acc p => setProp acc p.fst p.snd) r

/-! ## SQL statements and their engine semantics

`_upsert` and `_deleteIds` emit parameterized SQL text; we embed the three
statement shapes they use and give them SQLite's semantics.  `INSERT OR
IGNORE` drops the row when another row already carries the same (non-NULL)
primary-key value — default TEXT primary-key comparison is case-sensitive
(`BINARY`), unlike `lookup`'s explicit `COLLATE NOCASE` query.  Column names
are resolved exactly here: every statement the embedded code emits uses the
literal column names of the records it is given. -/

inductive Stmt where
  | insertOrIgnore (tbl : String) (cols : List String) (vals : List Value)
  | updateSet (tbl : String) (sets : List (String × Value)) (idVal : Value)
  | deleteIn (tbl : String) (ids : List Value)
deriving DecidableEq, Repr

def applyStmt (ts : List (String × Table)) : Stmt → Except String (List (String × Table))
  | Stmt.insertOrIgnore tbl cols vals =>
    match getTable ts tbl with
    | Option.none => Except.error ("no such table: " ++ tbl)
    | some t =>
      if cols.all (fun c => hasColumn t c) then
        let newRow : Record := cols.zip vals
        if t.rows.any (fun row => sqlEq (rowVal row "id") (rowVal newRow "id")) then
          Except.ok ts
        else
          Except.ok (setTable ts tbl { t with rows := t.rows ++ [newRow] })
      else Except.error ("no such column in table " ++ tbl)
  | Stmt.updateSet tbl sets idVal =>
    match getTable ts tbl with
    | Option.none => Except.error ("no such table: " ++ tbl)
    | some t =>
      if sets.all (fun p => hasColumn t p.fst) && hasColumn t "id" then
        Except.ok (setTable ts tbl
          { t with rows := t.rows.map (fun row =>
              if sqlEq (rowVal row "id") idVal then setProps row sets else row) })
      else Except.error ("no such column in table " ++ tbl)
  | Stmt.deleteIn tbl ids =>
    match getTable ts tbl with
    | Option.none => Except.error ("no such table: " ++ tbl)
    | some t =>
      if hasColumn t "id" then
        Except.ok (setTable ts tbl
          { t with rows := t.rows.filter (fun row =>
              !(ids.any (fun i => sqlEq (rowVal row "id") i))) })
      else Except.error ("no such column in table " ++ tbl)

/-- Execute a statement list inside one transaction body: the first failure
aborts, and the caller observes the pre-transaction state (rollback). -/
def applyStmts (ts : List (String × Table)) : List Stmt → Except String (List (String × Table))
  | [] => Except.ok ts
  | s :: rest =>
    match applyStmt ts s with
    | Except.error e => Except.error e
    | Except.ok ts' => applyStmts ts' rest

/-! ## `_upsert` (MobileServiceSqliteStore, lines 133–234) -/

/-- The `data` argument of `upsert`: JS `null`/`undefined`, a single record,
or an array whose entries may in turn be `null`/`undefined`. -/
inductive UpsertData where
  | noData : UpsertData
  | single (r : Record) : UpsertData
  | many (rs : List (Option Record)) : UpsertData
deriving DecidableEq, Repr

/-- The INSERT-then-UPDATE statement pair `_upsert` builds for one record
(lines 187–225): `INSERT OR IGNORE` of every property in property order, then
— only when the record has a property other than `id` — an `UPDATE` of the
non-id properties `WHERE id = ?` with the record's own id. -/
def upsertStatements (tbl : String) (r : Record) : List Stmt :=
  let updates := r.filter (fun p => !(isIdCol p.fst))
  Stmt.insertOrIgnore tbl (r.map Prod.fst) (r.map Prod.snd)
    :: (if updates.isEmpty then [] else [Stmt.updateSet tbl updates (getId r)])

/-- Insert-or-update on the primary key, written from the spec's words for
§4.1's `upsert` contract — the spec-side definition of the refinement claim,
to be compared with the code-side `upsertStatements`/`applyStmts`: if a row
with the record's id exists, overwrite exactly the supplied non-id columns of
every such row; otherwise append the record as a new row. -/
def upsertMergeRow (tbl : Table) (r : Record) : Table :=
  if tbl.rows.any (fun row => sqlEq (rowVal row "id") (getId r)) then
    { tbl with rows := tbl.rows.map (fun row =>
        if sqlEq (rowVal row "id") (getId r) then
          setProps row (r.filter (fun p => !(isIdCol p.fst)))
        else row) }
  else { tbl with rows := tbl.rows ++ [r] }

/-- The spec-side effect of `upsert` on a whole (possibly null-holed) record
list: fold the insert-or-update of each non-null record in order. -/
def upsertMergeList (ts : List (String × Table)) (t : String) :
    List (Option Record) → List (String × Table)
  | [] => ts
  | Option.none :: rest => upsertMergeList ts t rest
  | some r :: rest =>
    match getTable ts t with
    | some tbl => upsertMergeList (setTable ts t (upsertMergeRow tbl r)) t rest
    | Option.none => upsertMergeList ts t rest

/-- The primary-key invariant of a row list: no two rows carry SQL-equal
(non-null, identical) id values. -/
def IdsUnique (rows : List Record) : Prop :=
  rows.Pairwise (fun a b => sqlEq (rowVal a "id") (rowVal b "id") = false)

/-- JS property access `columnDefinitions.length`: `columnDefinitions` is a
plain object (a map from column name to type), and a plain object has no
`length` property, so the access yields `undefined`. -/
def jsObjectLength (_cd : List (String × String)) : Option Nat := Option.none

/-- JS `x > 999` where `x` may be `undefined`: comparison with `undefined`
is a NaN comparison and yields `false`. -/
def jsUndefGreaterThan : Option Nat → Nat → Bool
  | Option.none, _ => false
  | some m, n => decide (n < m)

/-- `this._upsert(transaction, tableName, data)`: argument validation, the
table-definition check, the per-record id validation (serialization is the
identity here, see the module comment), the column-count guard as the JS
actually evaluates it, then the generated statements executed in order inside
the enclosing transaction. -/
def upsertApply (ds : TableDefs) (ts : List (String × Table)) (tableName : String)
    (data : UpsertData) : Except String (List (String × Table)) :=
  if tableName == "" then Except.error "tableName cannot be null or empty"
  else
    match getTableDefinition ds tableName with
    | Option.none => Except.error ("Definition not found for table " ++ tableName)
    | some cd =>
      match data with
      | UpsertData.noData => Except.ok ts
      | _ =>
        let records : List (Option Record) :=
          match data with
          | UpsertData.single r => [some r]
          | UpsertData.many rs => rs
          | UpsertData.noData => []
        if records.all (fun r? =>
            match r? with
            | Option.none => true
            | some r => isValidId (getId r)) then
          if jsUndefGreaterThan (jsObjectLength cd) 999 then
            Except.error "Number of table columns cannot be more than 999"
          else
            applyStmts ts (List.flatten (records.map (fun r? =>
              match r? with
              | Option.none => []
              | some r => upsertStatements tableName r)))
        else Except.error "record id is not valid"

/-- `upsert(tableName, data)`: one transaction around `_upsert`; on error the
store keeps its previous state. -/
def Store.upsert (st : Store) (tableName : String) (data : UpsertData) :
    Except String Store :=
  match upsertApply st.defs st.tables tableName data with
  | Except.error e => Except.error e
  | Except.ok ts => Except.ok { st with tables := ts }

/-! ## `lookup` (MobileServiceSqliteStore, lines 249–289) -/

/-- `SELECT * FROM [t] WHERE id = ? COLLATE NOCASE`, taking `rows.item(0)`:
the first row (in table order) whose id matches case-insensitively. -/
def findRowNoCase (t : Table) (idv : Value) : Option Record :=
  t.rows.find? (fun row => valueEqNoCase (rowVal row "id") idv)

/-- `lookup(tableName, id, suppressRecordNotFoundError)`: validations, the
table-definition check, then the NOCASE select.  A matching row resolves with
the (identity-)deserialized record; no match resolves with `undefined`
(`Option.none`) when `suppressRecordNotFoundError` is set and rejects with
the "does not exist" error otherwise. -/
def Store.lookup (st : Store) (tableName : String) (idv : Value)
    (suppressRecordNotFoundError : Bool) : Except String (Option Record) :=
  if tableName == "" then Except.error "tableName cannot be null or empty"
  else if !(isValidId idv) then Except.error "id is not valid"
  else
    match getTableDefinition st.defs tableName with
    | Option.none => Except.error ("Definition not found for table " ++ tableName)
    | some _ =>
      match getTable st.tables tableName with
      | Option.none => Except.error ("no such table: " ++ tableName)
      | some t =>
        match findRowNoCase t idv with
        | some row => Except.ok (some row)
        | Option.none =>
          if suppressRecordNotFoundError then Except.ok Option.none
          else Except.error "Item with id does not exist."

/-! ## `del` by ids and by query (MobileServiceSqliteStore, lines 301–403) -/

/-- `del(tableName, ids)` (lines 308–328) with `_deleteIds` (lines 388–403):
null entries of the id array are ignored, the others validated; a single
`DELETE ... WHERE id in (...)` runs in one transaction. -/
def Store.delIds (st : Store) (tableName : String) (ids : List (Option Value)) :
    Except String Store :=
  if tableName == "" then Except.error "tableNameOrQuery cannot be null or empty"
  else if ids.all (fun i? =>
      match i? with
      | Option.none => true
      | some v => isValidId v) then
    match applyStmt st.tables
        (Stmt.deleteIn tableName (ids.filterMap (fun x => x))) with
    | Except.error e => Except.error e
    | Except.ok ts => Except.ok { st with tables := ts }
  else Except.error "id is not valid"

/-! The structured query object and `read`.  The query translator
(azure-query-js / azure-odata-sql) is an external collaborator: the spec
(§1, §4.2) specifies only its input/output shape, so we model a query by its
denotation — target table, a decidable filter predicate, the projection
column list (`selections`, empty = all columns) and the count flag — and let
`read` evaluate it directly over the table's rows. -/

structure Query where
  table : String
  filter : Record → Bool
  selections : List String
  includeCount : Bool

def projectRecord (sel : List String) (r : Record) : Record :=
  if sel.isEmpty then r else sel.map (fun c => (c, rowVal r c))

inductive ReadResult where
  | plain (records : List Record) : ReadResult
  | withCount (records : List Record) (count : Nat) : ReadResult

/-- `read(query)` / `_read` (lines 412–470): the filtered, projected rows,
wrapped with a COUNT(*) over the same filter when the query asks for it. -/
def Store.read (st : Store) (q : Query) : Except String ReadResult :=
  match getTableDefinition st.defs q.table with
  | Option.none => Except.error ("Definition not found for table " ++ q.table)
  | some _ =>
    match getTable st.tables q.table with
    | Option.none => Except.error ("no such table: " ++ q.table)
    | some t =>
      let rs := (t.rows.filter q.filter).map (projectRecord q.selections)
      if q.includeCount then Except.ok (ReadResult.withCount rs rs.length)
      else Except.ok (ReadResult.plain rs)

/-- `_deleteUsingQuery` (lines 340–385): drop any `select` clause from the
query so that ids are readable, `read` the remaining query, collect the
non-null `id` values of the result (unwrapping the `{result, count}` shape if
the query counted), and delete exactly those ids in one transaction. -/
def Store.delUsingQuery (st : Store) (q : Query) : Except String Store :=
  let q2 := if q.selections.isEmpty then q else
    { q with selections := ([] : List String) }
  match st.read q2 with
  | Except.error e => Except.error e
  | Except.ok res =>
    let records :=
      match res with
      | ReadResult.plain rs => rs
      | ReadResult.withCount rs _ => rs
    if q2.table == "" then Except.error "tableName cannot be null or empty"
    else
      let ids := (records.map (fun r => rowVal r "id")).filter
        (fun v => !(v == Value.vNull))
      match applyStmt st.tables (Stmt.deleteIn q2.table ids) with
      | Except.error e => Except.error e
      | Except.ok ts => Except.ok { st with tables := ts }

/-! ## `executeBatch` (MobileServiceSqliteStore, lines 492–530) -/

/-- One entry of an `executeBatch` list: `{action, tableName, data}` for an
upsert or `{action, tableName, id}` for a delete.  `id = Option.none` models
a JS `null`/`undefined` id. -/
structure BatchOp where
  action : String
  tableName : String
  data : UpsertData
  id : Option Value
deriving DecidableEq, Repr

/-- The body of `executeBatch`'s loop for one non-null operation: validate
the `action` and `tableName` strings, dispatch on the lower-cased action;
a delete whose id is null is silently skipped, an unknown action fails. -/
def applyBatchOp (ds : TableDefs) (ts : List (String × Table)) (op : BatchOp) :
    Except String (List (String × Table)) :=
  if op.action == "" then Except.error "action cannot be null or empty"
  else if op.tableName == "" then Except.error "tableName cannot be null or empty"
  else if lowerStr op.action == "upsert" then
    upsertApply ds ts op.tableName op.data
  else if lowerStr op.action == "delete" then
    match op.id with
    | Option.none => Except.ok ts
    | some v =>
      if isValidId v then applyStmt ts (Stmt.deleteIn op.tableName [v])
      else Except.error "id is not valid"
  else Except.error ("Operation " ++ op.action ++ " is not supported")

def applyBatchOps (ds : TableDefs) (ts : List (String × Table)) :
    List (Option BatchOp) → Except String (List (String × Table))
  | [] => Except.ok ts
  | Option.none :: rest => applyBatchOps ds ts rest
  | some op :: rest =>
    match applyBatchOp ds ts op with
    | Except.error e => Except.error e
    | Except.ok ts' => applyBatchOps ds ts' rest

/-- `executeBatch(operations)`: the whole ordered list runs inside a single
transaction; null entries are skipped; any failure rolls the store back to
its pre-call state. -/
def Store.executeBatch (st : Store) (ops : List (Option BatchOp)) :
    Except String Store :=
  match applyBatchOps st.defs st.tables ops with
  | Except.error e => Except.error e
  | Except.ok ts => Except.ok { st with tables := ts }

/-! ## `defineTable` (MobileServiceSqliteStore, lines 61–106, 559–595) -/

structure TableDefinition where
  name : String
  columnDefinitions : List (String × String)
deriving DecidableEq, Repr

/-- The column-type tokens of §6 accepted by `defineTable`. -/
def columnTypeTokens : List String :=
  ["object", "array", "date", "integer", "int", "float", "real",
   "string", "text", "boolean", "bool"]

/-- Modelled from the spec: `storeHelper.validateTableDefinition` (not under
`src/`), from §4.1's precondition — the name is non-empty, every declared
type is a valid token, and the `id` column is declared with type string or
integer. -/
def validTableDefinition (d : TableDefinition) : Bool :=
  !(d.name == "") &&
  d.columnDefinitions.all (fun p => columnTypeTokens.contains (lowerStr p.snd)) &&
  (match d.columnDefinitions.find? (fun p => isIdCol p.fst) with
   | some p =>
     lowerStr p.snd == "string" || lowerStr p.snd == "text" ||
     lowerStr p.snd == "integer" || lowerStr p.snd == "int"
   | Option.none => false)

/-- Modelled from the spec: `sqliteSerializer.getSqliteType` (not under
`src/`); §6's type tokens map to the SQLite storage classes TEXT, INTEGER
and REAL. -/
def getSqliteType (ty : String) : String :=
  let l := lowerStr ty
  if l == "object" || l == "array" || l == "string" || l == "text" then "TEXT"
  else if l == "integer" || l == "int" || l == "boolean" || l == "bool" ||
      l == "date" then "INTEGER"
  else "REAL"

/-- `createTable` (lines 559–579): `CREATE TABLE` with one clause per defined
column, declared with its SQLite type, and `PRIMARY KEY` on the id column. -/
def createTableApply (ts : List (String × Table)) (d : TableDefinition) :
    List (String × Table) :=
  let cols := d.columnDefinitions.map (fun p => (p.fst, getSqliteType p.snd))
  let pk := (d.columnDefinitions.find? (fun p => isIdCol p.fst)).map Prod.fst
  setTable ts d.name { columns := cols, pkColumn := pk, rows := [] }

/-- `addMissingColumns` (lines 582–595): for each defined column whose
lower-cased name is not among the existing columns, `ALTER TABLE ... ADD
COLUMN` with the raw declared type; existing columns and all stored rows are
untouched (SQLite's ADD COLUMN never rewrites rows, the new column reads as
NULL). -/
def addMissingColumnsApply (t : Table) (d : TableDefinition) : Table :=
  { t with columns := t.columns ++
      d.columnDefinitions.filter (fun p =>
        !(t.columns.any (fun q => lowerStr q.fst == lowerStr p.fst))) }

/-- `defineTable(tableDefinition)`: validate, then — per the `PRAGMA
table_info` check — create the table if it is absent and add the missing
columns if it exists; finally record the definition in the in-memory
registry. -/
def Store.defineTable (st : Store) (d : TableDefinition) : Except String Store :=
  if validTableDefinition d then
    let ts' :=
      match getTable st.tables d.name with
      | some t => setTable st.tables d.name (addMissingColumnsApply t d)
      | Option.none => createTableApply st.tables d
    Except.ok { tables := ts',
                defs := addTableDefinition st.defs d.name d.columnDefinitions }
  else Except.error "invalid table definition"

/-! ## The operation log (sync/operations.js, not under `src/`)

Modelled from the spec (§4.3, §3): the operation log is an ordinary table of
the same store, holding at most one entry per `(tableName, recordId)` with a
monotonically increasing sequence number in its `id` column, and
`getLoggingOperation(tableName, action, recordId)` returns the single
batch-op that, appended to an `executeBatch` list, persists the entry the
coalescing table of §3 prescribes. -/

def opsTableName : String := "__operations"

def opsTableColumnDefs : List (String × String) :=
  [("id", "integer"), ("tableName", "string"),
   ("recordId", "string"), ("action", "string")]

def opEntryMatches (row : Record) (tableName : String) (recordId : Value) : Bool :=
  rowVal row "tableName" == Value.vStr tableName && rowVal row "recordId" == recordId

def maxSeq (rows : List Record) : Int :=
  rows.foldl (fun m row =>
    match rowVal row "id" with
    | Value.vInt n => max m n
    | _ => m) 0

def mkOpEntry (seq : Int) (tableName : String) (recordId : Value)
    (action : String) : Record :=
  [("id", Value.vInt seq), ("tableName", Value.vStr tableName),
   ("recordId", recordId), ("action", Value.vStr action)]

def upsertOpEntry (entry : Record) : BatchOp :=
  { action := "upsert", tableName := opsTableName,
    data := UpsertData.single entry, id := Option.none }

/-- Modelled from the spec: `operationTableManager.getLoggingOperation`
(sync/operations.js is not under `src/`).  With no pending entry for
`(tableName, recordId)` the batch-op appends a fresh entry with the next
sequence number; with a pending entry the coalescing table of §3 applies:
keep, replace the action, drop both (a delete of the entry), or fail on
insert-over-insert, insert-over-update and update-over-delete. -/
def getLoggingOperation (st : Store) (tableName : String) (action : String)
    (recordId : Value) : Except String BatchOp :=
  let rows :=
    match getTable st.tables opsTableName with
    | some t => t.rows
    | Option.none => []
  match rows.find? (fun row => opEntryMatches row tableName recordId) with
  | Option.none =>
    Except.ok (upsertOpEntry (mkOpEntry (maxSeq rows + 1) tableName recordId action))
  | some entry =>
    let existing := rowVal entry "action"
    if existing == Value.vStr "insert" then
      if action == "insert" then Except.error "record with the given id already exists"
      else if action == "update" then Except.ok (upsertOpEntry entry)
      else Except.ok { action := "delete", tableName := opsTableName,
                       data := UpsertData.noData, id := some (rowVal entry "id") }
    else if existing == Value.vStr "update" then
      if action == "insert" then Except.error "record with the given id already exists"
      else if action == "update" then Except.ok (upsertOpEntry entry)
      else Except.ok (upsertOpEntry (setProp entry "action" (Value.vStr "delete")))
    else if existing == Value.vStr "delete" then
      if action == "insert" then
        Except.ok (upsertOpEntry (setProp entry "action" (Value.vStr "update")))
      else if action == "update" then Except.error "record with the given id does not exist"
      else Except.ok (upsertOpEntry entry)
    else Except.error "unknown pending operation"

/-! ## The sync context (MobileServiceSyncContext.js)

`storeTaskRunner.run` (taskRunner is not under `src/`) serializes the tasks;
per the spec's design note §9 we model the single-threaded FIFO executor as
immediate sequential execution.  `store` is unset until `initialize`
completes, so every operation checks it first. -/

structure SyncState where
  store? : Option Store
deriving DecidableEq, Repr

/-- `initialize(localStore)` — the operation-table manager is modelled from
the spec (§4.3): its `initialize` defines the reserved operation-log table in
the same store, after which the context is bound to the store. -/
def contextInit (st : Store) : Except String SyncState :=
  match st.defineTable { name := opsTableName, columnDefinitions := opsTableColumnDefs } with
  | Except.error e => Except.error e
  | Except.ok st' => Except.ok { store? := some st' }

/-- The error value of evaluating the JS expression `'...' + id + '...'` in
`insert`/`update`: the identifier `id` is unbound in that scope, so the
string concatenation throws a ReferenceError (spec §9, open question 1). -/
def jsRefErrorId : String := "ReferenceError: id is not defined"

/-- `insert(tableName, instance)` (lines 59–90): validate, require an
initialized context, `store.lookup` **without** `suppressRecordNotFoundError`,
reject when the lookup resolves to a record (evaluating the unbound `id`
symbol), otherwise append the data upsert and the logging operation in one
`executeBatch` and resolve with the instance. -/
def contextInsert (s : SyncState) (tableName : String) (inst : Record) :
    Except String (SyncState × Record) :=
  if tableName == "" then Except.error "tableName cannot be null or empty"
  else if !(isValidId (getId inst)) then Except.error "instance.id is not valid"
  else
    match s.store? with
    | Option.none => Except.error "MobileServiceSyncContext not initialized"
    | some st =>
      match st.lookup tableName (getId inst) false with
      | Except.error e => Except.error e
      | Except.ok (some _) => Except.error jsRefErrorId
      | Except.ok Option.none =>
        match getLoggingOperation st tableName "insert" (getId inst) with
        | Except.error e => Except.error e
        | Except.ok logOp =>
          match st.executeBatch
              [some { action := "upsert", tableName := tableName,
                      data := UpsertData.single inst, id := Option.none },
               some logOp] with
          | Except.error e => Except.error e
          | Except.ok st' => Except.ok ({ store? := some st' }, inst)

/-- `update(tableName, instance)` (lines 101–133): same shape as `insert`,
but the guard rejects (again via the unbound `id` symbol) when the lookup
resolved to null — a branch the suppress-less lookup never reaches, since a
missing record already rejects the lookup itself. -/
def contextUpdate (s : SyncState) (tableName : String) (inst : Record) :
    Except String (SyncState × Record) :=
  if tableName == "" then Except.error "tableName cannot be null or empty"
  else if !(isValidId (getId inst)) then Except.error "instance.id is not valid"
  else
    match s.store? with
    | Option.none => Except.error "MobileServiceSyncContext not initialized"
    | some st =>
      match st.lookup tableName (getId inst) false with
      | Except.error e => Except.error e
      | Except.ok Option.none => Except.error jsRefErrorId
      | Except.ok (some _) =>
        match getLoggingOperation st tableName "update" (getId inst) with
        | Except.error e => Except.error e
        | Except.ok logOp =>
          match st.executeBatch
              [some { action := "upsert", tableName := tableName,
                      data := UpsertData.single inst, id := Option.none },
               some logOp] with
          | Except.error e => Except.error e
          | Except.ok st' => Except.ok ({ store? := some st' }, inst)

/-- `del(tableName, instance)` (lines 166–190): validate, then append the
data delete and the logging operation in one `executeBatch`. -/
def contextDel (s : SyncState) (tableName : String) (inst : Record) :
    Except String SyncState :=
  if tableName == "" then Except.error "tableName cannot be null or empty"
  else if !(isValidId (getId inst)) then Except.error "id is not valid"
  else
    match s.store? with
    | Option.none => Except.error "MobileServiceSyncContext not initialized"
    | some st =>
      match getLoggingOperation st tableName "delete" (getId inst) with
      | Except.error e => Except.error e
      | Except.ok logOp =>
        match st.executeBatch
            [some { action := "delete", tableName := tableName,
                    data := UpsertData.noData, id := some (getId inst) },
             some logOp] with
        | Except.error e => Except.error e
        | Except.ok st' => Except.ok { store? := some st' }

/-! ## Concrete states used by the witnesses

The running example of spec §8 (scenario S1): a user table `t` with columns
`{id: string, v: integer}`, defined on a fresh store, then a sync context
initialized over it. -/

def emptyStore : Store := { tables := [], defs := [] }

def demoTableDef : TableDefinition :=
  { name := "t", columnDefinitions := [("id", "string"), ("v", "integer")] }

/-- The store after `defineTable` of the demo table. -/
def demoStore : Store :=
  match emptyStore.defineTable demoTableDef with
  | Except.ok st => st
  | Except.error _ => emptyStore

/-- The sync context initialized over `demoStore`. -/
def demoSync : SyncState :=
  match contextInit demoStore with
  | Except.ok s => s
  | Except.error _ => { store? := Option.none }

def recA : Record := [("id", Value.vStr "a"), ("v", Value.vInt 1)]

/-- `demoSync`'s store with the row `recA` seeded in table `t` (as a pull
would write it: no operation-log entry). -/
def seededStore : Store :=
  match demoSync.store? with
  | some st =>
    match st.upsert "t" (UpsertData.single recA) with
    | Except.ok st' => st'
    | Except.error _ => st
  | Option.none => emptyStore

def seededSync : SyncState := { store? := some seededStore }

/-- The bare initialized store underneath `demoSync`. -/
def initializedStore : Store :=
  match demoSync.store? with
  | some st => st
  | Option.none => emptyStore

/-- The physical table `t` of `seededStore`. -/
def seededTbl : Table :=
  { columns := [("id", "TEXT"), ("v", "INTEGER")], pkColumn := some "id",
    rows := [recA] }

/-- Did the promise resolve? -/
def exceptIsOk {ε α : Type} : Except ε α → Bool
  | Except.ok _ => true
  | Except.error _ => false

def recB : Record := [("id", Value.vStr "b"), ("v", Value.vInt 2)]

/-- `seededStore` with a second row `b` in table `t`. -/
def seededStore2 : Store :=
  match seededStore.upsert "t" (UpsertData.single recB) with
  | Except.ok st => st
  | Except.error _ => seededStore

/-- The physical table `t` of `seededStore2`. -/
def seededTbl2 : Table :=
  { columns := [("id", "TEXT"), ("v", "INTEGER")], pkColumn := some "id",
    rows := [recA, recB] }

/-- The structured query `v = 2` over table `t` (the denotation the external
query translator would produce; see the `Query` comment). -/
def demoQuery : Query :=
  { table := "t", filter := fun r => rowVal r "v" == Value.vInt 2,
    selections := [], includeCount := false }

/-! A table definition with 1000 columns, for the column-count limit (C7):
`id` plus 999 integer columns `c000` … `c998`. -/

def digitChar (n : Nat) : Char := Char.ofNat (48 + n % 10)

def bigColumnDefs : List (String × String) :=
  ("id", "string") ::
  (List.range 999).map (fun i =>
    (String.mk ['c', digitChar (i / 100), digitChar ((i / 10) % 10),
                digitChar (i % 10)], "integer"))

def bigDef : TableDefinition :=
  { name := "big", columnDefinitions := bigColumnDefs }

/-- The store after `defineTable` of the 1000-column table. -/
def bigStore : Store :=
  match emptyStore.defineTable bigDef with
  | Except.ok st => st
  | Except.error _ => emptyStore

/-! # Theorems -/

/-! ### ETag / version helpers -/

theorem escapeQuotes_head_ne_quote (v : List Char) :
    ∀ c cs, escapeQuotes v = c :: cs → c ≠ '"' := by
  intro c cs h
  cases v with
  | nil => simp [escapeQuotes] at h
  | cons a as =>
    by_cases ha : a = '"'
    · subst ha
      simp only [escapeQuotes, if_pos rfl] at h
      intro hc
      cases h
      simp_all
    · simp only [escapeQuotes, if_neg ha] at h
      intro hc
      cases h
      exact ha hc

theorem escapeQuotes_nil_iff (v : List Char) : escapeQuotes v = [] ↔ v = [] := by
  cases v with
  | nil => simp [escapeQuotes]
  | cons a as =>
    constructor
    · intro h
      by_cases ha : a = '"' <;> simp [escapeQuotes, ha] at h
    · intro h
      exact absurd h (List.cons_ne_nil a as)

theorem unescapeQuotes_escapeQuotes (v : List Char) :
    unescapeQuotes (escapeQuotes v) = v := by
  induction v with
  | nil => rfl
  | cons a as ih =>
    by_cases ha : a = '"'
    · subst ha
      simp only [escapeQuotes, if_pos rfl, if_true]
      rw [show unescapeQuotes ('\\' :: '"' :: escapeQuotes as)
            = '"' :: unescapeQuotes (escapeQuotes as) from by
        simp [unescapeQuotes]]
      rw [ih]
    · simp only [escapeQuotes, if_neg ha]
      cases hcs : escapeQuotes as with
      | nil =>
        have : as = [] := (escapeQuotes_nil_iff as).1 hcs
        subst this
        rfl
      | cons c cs =>
        have hc : c ≠ '"' := escapeQuotes_head_ne_quote as c cs hcs
        rw [show unescapeQuotes (a :: c :: cs) = a :: unescapeQuotes (c :: cs) from by
          simp only [unescapeQuotes]
          rw [if_neg]
          intro hand
          exact hc hand.2]
        rw [← hcs, ih]

theorem getVersionFromEtag_getEtagFromVersion (v : List Char) :
    getVersionFromEtag (getEtagFromVersion v) = v := by
  have hlen : 1 < (getEtagFromVersion v).length := by
    simp [getEtagFromVersion]
  have hhead : (getEtagFromVersion v).head? = some '"' := by
    simp [getEtagFromVersion]
  have hlast : (getEtagFromVersion v).getLast? = some '"' := by
    simp only [getEtagFromVersion]
    rw [show ('"' :: (escapeQuotes v ++ ['"'])) = ('"' :: escapeQuotes v) ++ '"' :: [] from by
      simp]
    rw [List.getLast?_append_cons]
    rfl
  unfold getVersionFromEtag
  rw [if_pos ⟨hlen, hhead, hlast⟩]
  simp only [getEtagFromVersion, List.drop_succ_cons, List.drop_zero]
  rw [List.dropLast_concat]
  exact unescapeQuotes_escapeQuotes v

/-- **C3** — For every ETag string E returned by the server — that is, every
ETag that encodes some version string, as produced by `getEtagFromVersion` —
converting E to a version (stripping the surrounding double quotes and
unescaping internal escaped quotes) and converting that version back to an
ETag yields E again: `etagFromVersion(versionFromEtag(E)) = E`. -/
theorem etag_version_roundtrip (E : List Char)
    (hE : ∃ v, E = getEtagFromVersion v) :
    getEtagFromVersion (getVersionFromEtag E) = E := by
  obtain ⟨v, rfl⟩ := hE
  rw [getVersionFromEtag_getEtagFromVersion]

/-- Witness for C3 at the server ETag `"a\"b"` (the version `a"b` with its
internal quote escaped). -/
theorem etag_version_roundtrip_witness :
    getEtagFromVersion (getVersionFromEtag ['"', 'a', '\\', '"', 'b', '"'])
      = ['"', 'a', '\\', '"', 'b', '"'] :=
  etag_version_roundtrip ['"', 'a', '\\', '"', 'b', '"']
    ⟨['a', '"', 'b'], by decide⟩

/-! ### The sync context's `insert` (C1) -/

/-- A lookup without `suppressRecordNotFoundError` never resolves with
`undefined`: it either resolves with the found record or rejects. -/
theorem lookup_no_suppress_ne_ok_none (st : Store) (t : String) (v : Value) :
    st.lookup t v false ≠ Except.ok Option.none := by
  unfold Store.lookup
  intro h
  split at h
  · exact Except.noConfusion h
  · split at h
    · exact Except.noConfusion h
    · split at h
      · exact Except.noConfusion h
      · split at h
        · exact Except.noConfusion h
        · split at h
          · simp at h
          · simp at h

/-- No call to `contextInsert` resolves successfully: reaching the
`executeBatch` stage would need the suppress-less lookup to resolve with
`undefined`, which it never does. -/
theorem contextInsert_never_ok (s : SyncState) (t : String) (r : Record)
    (x : SyncState × Record) : contextInsert s t r ≠ Except.ok x := by
  intro h
  unfold contextInsert at h
  by_cases h1 : (t == "") = true
  · rw [if_pos h1] at h
    exact Except.noConfusion h
  · rw [if_neg h1] at h
    by_cases h2 : (!isValidId (getId r)) = true
    · rw [if_pos h2] at h
      exact Except.noConfusion h
    · rw [if_neg h2] at h
      cases hs : s.store? with
      | none =>
        rw [hs] at h
        exact Except.noConfusion h
      | some st =>
        rw [hs] at h
        dsimp only at h
        cases hlk : st.lookup t (getId r) false with
        | error e =>
          rw [hlk] at h
          exact Except.noConfusion h
        | ok r? =>
          cases r? with
          | some row =>
            rw [hlk] at h
            exact Except.noConfusion h
          | none => exact lookup_no_suppress_ne_ok_none st t (getId r) hlk

/-- **C1** — the claim fails on the code: `insert` never succeeds.  The
`store.lookup` call at MobileServiceSyncContext.js line 71 omits the
`suppressRecordNotFoundError` flag, so when the target table does *not*
contain the id the lookup itself rejects with "Item with id ... does not
exist." and `insert` rejects with it; when the table does contain the id the
guard throws (a ReferenceError, since its message evaluates the unbound `id`
symbol).  The first conjunct evaluates the code at the claim's own scenario
(S1: fresh initialized context, `insert('t', {id:'a', v:1})`); the second
states that no call to `insert` whatsoever resolves successfully. -/
theorem insert_always_rejects :
    contextInsert demoSync "t" recA = Except.error "Item with id does not exist."
    ∧ ∀ (s : SyncState) (t : String) (r : Record) (x : SyncState × Record),
        contextInsert s t r ≠ Except.ok x :=
  ⟨by decide, contextInsert_never_ok⟩

/-! ### Evaluating `lookup` against the found-row function (used by C2, C4, C6) -/

theorem lookup_eval (st : Store) (t : String) (idv : Value) (sup : Bool) (tbl : Table)
    (ht : ¬ t = "") (hid : isValidId idv = true)
    (hdef : (getTableDefinition st.defs t).isSome = true)
    (htbl : getTable st.tables t = some tbl) :
    st.lookup t idv sup =
      match findRowNoCase tbl idv with
      | some row => Except.ok (some row)
      | Option.none =>
        if sup then Except.ok Option.none
        else Except.error "Item with id does not exist." := by
  obtain ⟨cd, hcd⟩ := Option.isSome_iff_exists.mp hdef
  cases hfr : findRowNoCase tbl idv with
  | some row => simp [Store.lookup, hcd, htbl, ht, hid, hfr]
  | none => cases sup <;> simp [Store.lookup, hcd, htbl, ht, hid, hfr]

/-- **C4** — Precondition failures of local CRUD are reported as errors and
cause no state change.  Insert of a record whose id is already present in the
table rejects (with the ReferenceError the unbound `id` symbol in the error
message produces); update of a record whose id is absent rejects (with the
lookup's own "does not exist" error).  In both cases the rejection happens
before the `executeBatch` call, so no data-table or operation-log mutation is
ever issued: an `Except.error` outcome carries no new store state, and the
caller's store is exactly what it was. -/
theorem precondition_failures_reject (st : Store) (t : String) (r : Record) (tbl : Table)
    (ht : ¬ t = "") (hid : isValidId (getId r) = true)
    (hdef : (getTableDefinition st.defs t).isSome = true)
    (htbl : getTable st.tables t = some tbl) :
    ((∃ row, findRowNoCase tbl (getId r) = some row) →
      contextInsert { store? := some st } t r = Except.error jsRefErrorId)
    ∧ (findRowNoCase tbl (getId r) = Option.none →
      contextUpdate { store? := some st } t r
        = Except.error "Item with id does not exist.") := by
  have hlk := lookup_eval st t (getId r) false tbl ht hid hdef htbl
  constructor
  · intro ⟨row, hrow⟩
    rw [hrow] at hlk
    simp [contextInsert, ht, hid, hlk]
  · intro hnone
    rw [hnone] at hlk
    simp only [Bool.false_eq_true, if_false] at hlk
    simp [contextUpdate, ht, hid, hlk]

/-- Witness for C4: inserting `{id:'a', v:1}` into a table that already holds
the row `a` rejects with the ReferenceError, and updating it in a table with
no row `a` rejects with the lookup's not-found error. -/
theorem precondition_failures_reject_witness :
    contextInsert { store? := some seededStore } "t" recA = Except.error jsRefErrorId
    ∧ contextUpdate { store? := some initializedStore } "t" recA
        = Except.error "Item with id does not exist." :=
  ⟨(precondition_failures_reject seededStore "t" recA
      { columns := [("id", "TEXT"), ("v", "INTEGER")], pkColumn := some "id",
        rows := [recA] }
      (by decide) (by decide) (by decide) (by decide)).1 ⟨recA, by decide⟩,
   (precondition_failures_reject initializedStore "t" recA
      { columns := [("id", "TEXT"), ("v", "INTEGER")], pkColumn := some "id",
        rows := [] }
      (by decide) (by decide) (by decide) (by decide)).2 (by decide)⟩

/-! ### One `executeBatch` per local CRUD operation (C2) -/

/-- **C2** — For every local CRUD operation the data-table mutation and its
operation-log entry are applied by a single `executeBatch` call, whose whole
operation list runs as one store transaction with null entries skipped.
Conjunct 1: `executeBatch` skips a null list entry.  Conjuncts 2 and 3: the
entire state effect of `update` and `del` *is* one `executeBatch` of the
two-entry list `[data mutation, logging operation]` — `Except.map` repackages
only the successful store, so a failing transaction yields an error and no
new state: the pre-call store is what remains observable, never a partial
one.  Conjunct 4: if an `insert` resolves, its state likewise came from that
single `executeBatch` call (with the C1 bug this branch is unreachable, so it
holds vacuously). -/
theorem crud_single_executeBatch (st : Store) (t : String) (r : Record)
    (ht : ¬ t = "") (hid : isValidId (getId r) = true) :
    (∀ ops, st.executeBatch (Option.none :: ops) = st.executeBatch ops)
    ∧ (∀ row lop, st.lookup t (getId r) false = Except.ok (some row) →
        getLoggingOperation st t "update" (getId r) = Except.ok lop →
        contextUpdate { store? := some st } t r
          = Except.map (fun st' => ({ store? := some st' }, r))
              (st.executeBatch
                [some { action := "upsert", tableName := t,
                        data := UpsertData.single r, id := Option.none },
                 some lop]))
    ∧ (∀ lop, getLoggingOperation st t "delete" (getId r) = Except.ok lop →
        contextDel { store? := some st } t r
          = Except.map (fun st' => { store? := some st' })
              (st.executeBatch
                [some { action := "delete", tableName := t,
                        data := UpsertData.noData, id := some (getId r) },
                 some lop]))
    ∧ (∀ x, contextInsert { store? := some st } t r = Except.ok x →
        ∃ lop st', getLoggingOperation st t "insert" (getId r) = Except.ok lop ∧
          st.executeBatch
            [some { action := "upsert", tableName := t,
                    data := UpsertData.single r, id := Option.none },
             some lop] = Except.ok st' ∧ x = ({ store? := some st' }, r)) := by
  refine ⟨?_, ?_, ?_, ?_⟩
  · intro ops
    simp [Store.executeBatch, applyBatchOps]
  · intro row lop hlk hlop
    cases hb : st.executeBatch
        [some { action := "upsert", tableName := t,
                data := UpsertData.single r, id := Option.none },
         some lop] with
    | error e => simp [contextUpdate, ht, hid, hlk, hlop, hb, Except.map]
    | ok st' => simp [contextUpdate, ht, hid, hlk, hlop, hb, Except.map]
  · intro lop hlop
    cases hb : st.executeBatch
        [some { action := "delete", tableName := t,
                data := UpsertData.noData, id := some (getId r) },
         some lop] with
    | error e => simp [contextDel, ht, hid, hlop, hb, Except.map]
    | ok st' => simp [contextDel, ht, hid, hlop, hb, Except.map]
  · intro x h
    exact absurd h (contextInsert_never_ok _ _ _ _)

/-- Witness for C2: over the seeded store, the null skip, and both `update`
and `del` of row `a` equal one `executeBatch` of their two-entry lists (the
logging operations being the first fresh entries of the empty log). -/
theorem crud_single_executeBatch_witness :
    (seededStore.executeBatch (Option.none :: []) = seededStore.executeBatch [])
    ∧ contextUpdate { store? := some seededStore } "t" recA
        = Except.map (fun st' => ({ store? := some st' }, recA))
            (seededStore.executeBatch
              [some { action := "upsert", tableName := "t",
                      data := UpsertData.single recA, id := Option.none },
               some (upsertOpEntry (mkOpEntry 1 "t" (Value.vStr "a") "update"))])
    ∧ contextDel { store? := some seededStore } "t" recA
        = Except.map (fun st' => { store? := some st' })
            (seededStore.executeBatch
              [some { action := "delete", tableName := "t",
                      data := UpsertData.noData, id := some (getId recA) },
               some (upsertOpEntry (mkOpEntry 1 "t" (Value.vStr "a") "delete"))]) :=
  have h := crud_single_executeBatch seededStore "t" recA (by decide) (by decide)
  ⟨h.1 [], h.2.1 recA _ (by decide) (by decide), h.2.2.1 _ (by decide)⟩

/-! ### `lookup` (C6) -/

/-- **C6** — `lookup(tableName, id, suppressNotFound)` resolves with the
(identity-)deserialized record when a row matches; with no matching row it
resolves with the absent sentinel (`Option.none`, JS `undefined`) when
`suppressNotFound` is true and rejects with the "does not exist" error
otherwise; and the row it finds is matched by the case-insensitive NOCASE
comparison on the id column (last conjunct). -/
theorem lookup_behavior (st : Store) (t : String) (idv : Value) (sup : Bool)
    (tbl : Table) (ht : ¬ t = "") (hid : isValidId idv = true)
    (hdef : (getTableDefinition st.defs t).isSome = true)
    (htbl : getTable st.tables t = some tbl) :
    (∀ row, findRowNoCase tbl idv = some row →
      st.lookup t idv sup = Except.ok (some row))
    ∧ (findRowNoCase tbl idv = Option.none → sup = true →
      st.lookup t idv sup = Except.ok Option.none)
    ∧ (findRowNoCase tbl idv = Option.none → sup = false →
      st.lookup t idv sup = Except.error "Item with id does not exist.")
    ∧ (∀ row, findRowNoCase tbl idv = some row →
      valueEqNoCase (rowVal row "id") idv = true) := by
  have hlk := lookup_eval st t idv sup tbl ht hid hdef htbl
  refine ⟨?_, ?_, ?_, ?_⟩
  · intro row hrow
    rw [hrow] at hlk
    exact hlk
  · intro hnone hsup
    subst hsup
    rw [hnone] at hlk
    simpa using hlk
  · intro hnone hsup
    subst hsup
    rw [hnone] at hlk
    simpa using hlk
  · intro row hrow
    unfold findRowNoCase at hrow
    have hp := List.find?_some hrow
    simpa using hp

/-- Witness for C6 over the seeded store: the id `A` finds the row stored
under `a` (NOCASE), a missing id resolves with the sentinel when suppressed
and rejects otherwise. -/
theorem lookup_behavior_witness :
    seededStore.lookup "t" (Value.vStr "A") false = Except.ok (some recA)
    ∧ seededStore.lookup "t" (Value.vStr "b") true = Except.ok Option.none
    ∧ seededStore.lookup "t" (Value.vStr "b") false
        = Except.error "Item with id does not exist."
    ∧ valueEqNoCase (rowVal recA "id") (Value.vStr "A") = true :=
  ⟨(lookup_behavior seededStore "t" (Value.vStr "A") false seededTbl
      (by decide) (by decide) (by decide) (by decide)).1 recA (by decide),
   (lookup_behavior seededStore "t" (Value.vStr "b") true seededTbl
      (by decide) (by decide) (by decide) (by decide)).2.1 (by decide) rfl,
   (lookup_behavior seededStore "t" (Value.vStr "b") false seededTbl
      (by decide) (by decide) (by decide) (by decide)).2.2.1 (by decide) rfl,
   (lookup_behavior seededStore "t" (Value.vStr "A") false seededTbl
      (by decide) (by decide) (by decide) (by decide)).2.2.2 recA (by decide)⟩

/-! ### Association-list bookkeeping (shared by records, tables, registry) -/

theorem find?_map_replace_self {β : Type} (ts : List (String × β)) (n : String) (t : β) :
    List.find? (fun q => q.fst == n)
        (ts.map (fun p => if p.fst == n then (n, t) else p))
      = if (List.find? (fun q => q.fst == n) ts).isSome then some (n, t)
        else Option.none := by
  induction ts with
  | nil => simp
  | cons p ps ih =>
    by_cases h : (p.fst == n) = true
    · rw [List.map_cons, if_pos h]
      rw [show List.find? (fun q => q.fst == n)
            ((n, t) :: ps.map (fun p => if p.fst == n then (n, t) else p))
            = some (n, t) from by
        rw [List.find?_cons]
        simp]
      rw [show List.find? (fun q => q.fst == n) (p :: ps) = some p from by
        rw [List.find?_cons]
        simp [h]]
      simp
    · have h' : (p.fst == n) = false := by
        cases hb : (p.fst == n) with
        | true => exact absurd hb h
        | false => rfl
      rw [List.map_cons, if_neg h]
      simp only [List.find?_cons, h']
      exact ih

theorem find?_map_replace_ne {β : Type} (ts : List (String × β)) (n u : String) (t : β)
    (h : ¬ u = n) :
    List.find? (fun q => q.fst == u)
        (ts.map (fun p => if p.fst == n then (n, t) else p))
      = List.find? (fun q => q.fst == u) ts := by
  have hnu : (n == u) = false := by
    simp only [beq_eq_false_iff_ne, ne_eq]
    intro hc
    exact h hc.symm
  induction ts with
  | nil => simp
  | cons p ps ih =>
    by_cases hp : (p.fst == n) = true
    · have hpu : (p.fst == u) = false := by
        rw [beq_iff_eq] at hp
        rw [hp]
        exact hnu
      rw [List.map_cons, if_pos hp]
      simp only [List.find?_cons, hnu, hpu]
      exact ih
    · rw [List.map_cons, if_neg hp]
      simp only [List.find?_cons]
      cases hpu : (p.fst == u) with
      | true => rfl
      | false => exact ih

theorem assocGet_assocSet_self {β : Type} (ts : List (String × β)) (n : String) (t : β) :
    assocGet (assocSet ts n t) n = some t := by
  unfold assocSet
  by_cases hs : (List.find? (fun p => p.fst == n) ts).isSome = true
  · rw [if_pos hs]
    unfold assocGet
    rw [find?_map_replace_self, if_pos hs]
    rfl
  · rw [if_neg hs]
    unfold assocGet
    rw [List.find?_append]
    rw [Option.not_isSome_iff_eq_none] at hs
    rw [hs]
    simp

theorem assocGet_assocSet_ne {β : Type} (ts : List (String × β)) (n u : String) (t : β)
    (h : ¬ u = n) : assocGet (assocSet ts n t) u = assocGet ts u := by
  have hnu : (n == u) = false := by
    simp only [beq_eq_false_iff_ne, ne_eq]
    intro hc
    exact h hc.symm
  unfold assocSet
  by_cases hs : (List.find? (fun p => p.fst == n) ts).isSome = true
  · rw [if_pos hs]
    unfold assocGet
    rw [find?_map_replace_ne ts n u t h]
  · rw [if_neg hs]
    unfold assocGet
    rw [List.find?_append]
    simp [List.find?_cons, hnu]

theorem assocSet_assocSet {β : Type} (l : List (String × β)) (k : String) (a b : β) :
    assocSet (assocSet l k a) k b = assocSet l k b := by
  unfold assocSet
  by_cases hs : (List.find? (fun p => p.fst == k) l).isSome = true
  · rw [if_pos hs]
    have h2 : (List.find? (fun p => p.fst == k)
        (l.map (fun p => if p.fst == k then (k, a) else p))).isSome = true := by
      rw [find?_map_replace_self, if_pos hs]
      rfl
    rw [if_pos h2, if_pos hs, List.map_map]
    apply List.map_congr_left
    intro p _
    by_cases hpk : (p.fst == k) = true
    · simp [Function.comp, hpk]
    · simp [Function.comp, hpk]
  · rw [if_neg hs]
    have hnone : List.find? (fun p => p.fst == k) l = Option.none :=
      Option.not_isSome_iff_eq_none.mp hs
    have h2 : (List.find? (fun p => p.fst == k) (l ++ [(k, a)])).isSome = true := by
      rw [List.find?_append, hnone]
      simp
    rw [if_pos h2, if_neg hs, List.map_append]
    have hmapl : l.map (fun p => if p.fst == k then (k, b) else p) = l := by
      have hall := List.find?_eq_none.mp hnone
      rw [show l.map (fun p => if p.fst == k then (k, b) else p) = l.map id from
        List.map_congr_left (fun p hp => by
          have := hall p hp
          simp at this
          simp [this])]
      exact List.map_id l
    rw [hmapl]
    simp

theorem assocSet_keys_nodup {β : Type} (l : List (String × β)) (k : String) (v : β)
    (h : (l.map Prod.fst).Nodup) : ((assocSet l k v).map Prod.fst).Nodup := by
  unfold assocSet
  by_cases hs : (List.find? (fun p => p.fst == k) l).isSome = true
  · rw [if_pos hs]
    have hkeys : (l.map (fun p => if p.fst == k then (k, v) else p)).map Prod.fst
        = l.map Prod.fst := by
      rw [List.map_map]
      apply List.map_congr_left
      intro p _
      by_cases hpk : (p.fst == k) = true
      · rw [beq_iff_eq] at hpk
        simp [Function.comp, hpk]
      · simp [Function.comp, hpk]
    rw [hkeys]
    exact h
  · rw [if_neg hs]
    have hnone : List.find? (fun p => p.fst == k) l = Option.none :=
      Option.not_isSome_iff_eq_none.mp hs
    have hall := List.find?_eq_none.mp hnone
    rw [List.map_append]
    rw [List.nodup_append]
    refine ⟨h, by simp, ?_⟩
    intro a ha hb
    simp only [List.map_cons, List.map_nil, List.mem_singleton] at hb
    subst hb
    obtain ⟨p, hp, hpk⟩ := List.mem_map.mp ha
    have := hall p hp
    simp at this
    exact this hpk

theorem assocGet_of_mem_nodup {β : Type} (l : List (String × β)) (k : String) (v : β)
    (hmem : (k, v) ∈ l) (hnd : (l.map Prod.fst).Nodup) : assocGet l k = some v := by
  induction l with
  | nil => cases hmem
  | cons p ps ih =>
    rw [List.map_cons, List.nodup_cons] at hnd
    cases List.mem_cons.mp hmem with
    | inl h =>
      unfold assocGet
      rw [List.find?_cons]
      rw [← h]
      simp
    | inr h =>
      have hk : k ∈ ps.map Prod.fst := List.mem_map.mpr ⟨(k, v), h, rfl⟩
      have hne : (p.fst == k) = false := by
        simp only [beq_eq_false_iff_ne, ne_eq]
        intro hc
        exact hnd.1 (hc ▸ hk)
      unfold assocGet
      rw [List.find?_cons, hne]
      exact ih h hnd.2

theorem key_mem_of_assocGet {β : Type} (l : List (String × β)) (k : String) (v : β)
    (h : assocGet l k = some v) : k ∈ l.map Prod.fst := by
  unfold assocGet at h
  cases hf : l.find? (fun p => p.fst == k) with
  | none => rw [hf] at h; cases h
  | some p =>
    have hp := List.find?_some hf
    rw [beq_iff_eq] at hp
    exact List.mem_map.mpr ⟨p, List.mem_of_find?_eq_some hf, hp⟩

theorem assocSet_get_self {β : Type} (l : List (String × β)) (k : String) (v : β)
    (hnd : (l.map Prod.fst).Nodup) (h : assocGet l k = some v) : assocSet l k v = l := by
  unfold assocGet at h
  cases hf : l.find? (fun p => p.fst == k) with
  | none => rw [hf] at h; cases h
  | some p =>
    rw [hf] at h
    have hv : p.snd = v := by simpa using h
    have hk : p.fst = k := by simpa using List.find?_some hf
    have hpmem : p ∈ l := List.mem_of_find?_eq_some hf
    unfold assocSet
    rw [hf]
    simp only [Option.isSome_some, if_true]
    rw [show l.map (fun q => if q.fst == k then (k, v) else q) = l.map id from
      List.map_congr_left (fun q hq => by
        by_cases hqk : q.fst = k
        · have hq2 : q = p := List.inj_on_of_nodup_map hnd hq hpmem (by rw [hqk, hk])
          have hpkv : ((k, v) : String × β) = p := by
            rw [← hk, ← hv]
          rw [if_pos (show (q.fst == k) = true from by rw [beq_iff_eq]; exact hqk),
            hq2, hpkv]
          rfl
        · rw [if_neg (show ¬ (q.fst == k) = true from by
            rw [beq_iff_eq]; exact hqk)]
          rfl)]
    exact List.map_id l

/-! ### Record-level consequences -/

theorem getProp_setProp_ne (r : Record) (k u : String) (v : Value) (h : ¬ u = k) :
    getProp (setProp r k v) u = getProp r u :=
  assocGet_assocSet_ne r k u v h

theorem getProp_setProps_not_key (r : Record) (sets : List (String × Value))
    (u : String) (h : ∀ p ∈ sets, ¬ p.fst = u) :
    getProp (setProps r sets) u = getProp r u := by
  induction sets generalizing r with
  | nil => rfl
  | cons s rest ih =>
    show getProp (setProps (setProp r s.fst s.snd) rest) u = getProp r u
    rw [ih (setProp r s.fst s.snd) (fun p hp => h p (List.mem_cons_of_mem s hp))]
    exact getProp_setProp_ne r s.fst u s.snd
      (fun hc => h s (List.mem_cons_self s rest) hc.symm)

theorem getProp_setProps_mem (r : Record) (sets : List (String × Value))
    (k : String) (v : Value) (hnd : (sets.map Prod.fst).Nodup)
    (hmem : (k, v) ∈ sets) : getProp (setProps r sets) k = some v := by
  induction sets generalizing r with
  | nil => cases hmem
  | cons s rest ih =>
    rw [List.map_cons, List.nodup_cons] at hnd
    cases List.mem_cons.mp hmem with
    | inl h =>
      show getProp (setProps (setProp r s.fst s.snd) rest) k = some v
      rw [getProp_setProps_not_key _ rest k (fun p hp hc => by
        apply hnd.1
        rw [← h]
        exact hc ▸ List.mem_map.mpr ⟨p, hp, rfl⟩)]
      have hk : s.fst = k := by rw [← h]
      have hv : s.snd = v := by rw [← h]
      rw [hk, hv] at *
      exact assocGet_assocSet_self r k v
    | inr h =>
      exact ih (setProp r s.fst s.snd) hnd.2 h

theorem setProps_sub_self (r : Record) (sets : List (String × Value))
    (hnd : (r.map Prod.fst).Nodup) (hsub : ∀ p ∈ sets, p ∈ r) :
    setProps r sets = r := by
  induction sets with
  | nil => rfl
  | cons s rest ih =>
    show setProps (setProp r s.fst s.snd) rest = r
    have hs : setProp r s.fst s.snd = r :=
      assocSet_get_self r s.fst s.snd hnd
        (assocGet_of_mem_nodup r s.fst s.snd (hsub s (List.mem_cons_self s rest)) hnd)
    rw [hs]
    exact ih (fun p hp => hsub p (List.mem_cons_of_mem s hp))

theorem getProp_of_mem_nodup (r : Record) (k : String) (v : Value)
    (hmem : (k, v) ∈ r) (hnd : (r.map Prod.fst).Nodup) : getProp r k = some v :=
  assocGet_of_mem_nodup r k v hmem hnd

/-! ### Value-level facts -/

theorem isValidId_ne_null (v : Value) (h : isValidId v = true) :
    ¬ v = Value.vNull := by
  intro hc
  subst hc
  simp [isValidId] at h

theorem sqlEq_eq (a b : Value) (h : sqlEq a b = true) : a = b := by
  cases a <;> cases b <;> simp_all [sqlEq]

theorem sqlEq_self (v : Value) (h : ¬ v = Value.vNull) : sqlEq v v = true := by
  cases v with
  | vNull => exact absurd rfl h
  | vStr s => simp [sqlEq]
  | vInt n => simp [sqlEq]
  | vBool b => simp [sqlEq]

theorem sqlEq_symm (a b : Value) : sqlEq a b = sqlEq b a := by
  cases a <;> cases b <;> simp [sqlEq, BEq.comm]

theorem zip_fst_snd {α β : Type} (l : List (α × β)) :
    (l.map Prod.fst).zip (l.map Prod.snd) = l := by
  induction l with
  | nil => rfl
  | cons p ps ih => simp [ih]

theorem idKey_mem_of_valid (r : Record) (hid : isValidId (getId r) = true) :
    "id" ∈ r.map Prod.fst := by
  unfold getId rowVal at hid
  cases hg : getProp r "id" with
  | none =>
    rw [hg] at hid
    simp [isValidId] at hid
  | some v => exact key_mem_of_assocGet r "id" v hg

theorem getId_eq_getProp (r : Record) (hid : isValidId (getId r) = true) :
    getProp r "id" = some (getId r) := by
  unfold getId rowVal at *
  cases hg : getProp r "id" with
  | none =>
    rw [hg] at hid
    simp [isValidId] at hid
  | some v => simp

theorem getTable_setTable_self (ts : List (String × Table)) (n : String) (t : Table) :
    getTable (setTable ts n t) n = some t :=
  assocGet_assocSet_self ts n t

theorem applyStmts_append (ts : List (String × Table)) (a b : List Stmt) :
    applyStmts ts (a ++ b)
      = match applyStmts ts a with
        | Except.error e => Except.error e
        | Except.ok ts' => applyStmts ts' b := by
  induction a generalizing ts with
  | nil => simp [applyStmts]
  | cons s rest ih =>
    simp only [List.cons_append, applyStmts]
    cases applyStmt ts s with
    | error e => rfl
    | ok ts' => exact ih ts'

/-- The INSERT-OR-IGNORE/UPDATE pair `_upsert` emits for one record has
exactly the spec's insert-or-update-on-primary-key effect. -/
theorem applyStmts_upsertStatements (ts : List (String × Table)) (t : String)
    (r : Record) (tbl : Table)
    (htbl : getTable ts t = some tbl)
    (hndts : (ts.map Prod.fst).Nodup)
    (hndr : (r.map Prod.fst).Nodup)
    (hid : isValidId (getId r) = true)
    (hcols : ∀ c ∈ r.map Prod.fst, hasColumn tbl c = true) :
    applyStmts ts (upsertStatements t r)
      = Except.ok (setTable ts t (upsertMergeRow tbl r)) := by
  have hnn : ¬ getId r = Value.vNull := isValidId_ne_null _ hid
  have hidcol : hasColumn tbl "id" = true := hcols "id" (idKey_mem_of_valid r hid)
  have hcolsall : ((r.map Prod.fst).all fun c => hasColumn tbl c) = true :=
    List.all_eq_true.mpr (fun c hc => hcols c hc)
  have hzip : (r.map Prod.fst).zip (r.map Prod.snd) = r := zip_fst_snd r
  have hupdcols : ((r.filter (fun p => !(isIdCol p.fst))).all
      fun p => hasColumn tbl p.fst) = true :=
    List.all_eq_true.mpr (fun p hp =>
      hcols p.fst (List.mem_map.mpr ⟨p, List.mem_of_mem_filter hp, rfl⟩))
  have hinsert : applyStmt ts (Stmt.insertOrIgnore t (r.map Prod.fst) (r.map Prod.snd))
      = (if tbl.rows.any (fun row => sqlEq (rowVal row "id") (getId r)) then
          Except.ok ts
        else Except.ok (setTable ts t { tbl with rows := tbl.rows ++ [r] })) := by
    unfold applyStmt
    dsimp only
    rw [htbl]
    dsimp only
    rw [if_pos hcolsall, hzip]
    rfl
  unfold upsertStatements
  by_cases hmem : (tbl.rows.any fun row => sqlEq (rowVal row "id") (getId r)) = true
  · rw [if_pos hmem] at hinsert
    by_cases hupd : (r.filter (fun p => !(isIdCol p.fst))).isEmpty = true
    · simp only [hupd, if_true]
      show applyStmts ts [Stmt.insertOrIgnore t (r.map Prod.fst) (r.map Prod.snd)]
        = Except.ok (setTable ts t (upsertMergeRow tbl r))
      unfold applyStmts
      rw [hinsert]
      unfold applyStmts
      have hempty : r.filter (fun p => !(isIdCol p.fst)) = [] :=
        List.isEmpty_iff.mp hupd
      have hmerge : upsertMergeRow tbl r = tbl := by
        unfold upsertMergeRow
        rw [if_pos hmem, hempty]
        have : tbl.rows.map (fun row =>
            if sqlEq (rowVal row "id") (getId r) then setProps row [] else row)
            = tbl.rows := by
          rw [show (fun row => if sqlEq (rowVal row "id") (getId r)
                then setProps row [] else row) = fun row => id row from by
            funext row
            show (if sqlEq (rowVal row "id") (getId r) then row else row) = row
            rw [ite_self]]
          exact List.map_id tbl.rows
        rw [this]
      rw [hmerge]
      rw [show setTable ts t tbl = ts from assocSet_get_self ts t tbl hndts htbl]
    · simp only [hupd, Bool.false_eq_true, if_false]
      show applyStmts ts [Stmt.insertOrIgnore t (r.map Prod.fst) (r.map Prod.snd),
        Stmt.updateSet t (r.filter (fun p => !(isIdCol p.fst))) (getId r)]
        = Except.ok (setTable ts t (upsertMergeRow tbl r))
      unfold applyStmts
      rw [hinsert]
      unfold applyStmts
      unfold applyStmt
      dsimp only
      rw [htbl]
      dsimp only
      rw [if_pos (by rw [hupdcols, hidcol]; rfl)]
      unfold applyStmts
      unfold upsertMergeRow
      rw [if_pos hmem]
  · rw [if_neg hmem] at hinsert
    have hmemf : (tbl.rows.any fun row => sqlEq (rowVal row "id") (getId r)) = false := by
      cases hb : (tbl.rows.any fun row => sqlEq (rowVal row "id") (getId r)) with
      | true => exact absurd hb hmem
      | false => rfl
    have hall := List.any_eq_false.mp hmemf
    by_cases hupd : (r.filter (fun p => !(isIdCol p.fst))).isEmpty = true
    · simp only [hupd, if_true]
      show applyStmts ts [Stmt.insertOrIgnore t (r.map Prod.fst) (r.map Prod.snd)]
        = Except.ok (setTable ts t (upsertMergeRow tbl r))
      unfold applyStmts
      rw [hinsert]
      unfold applyStmts
      unfold upsertMergeRow
      rw [if_neg hmem]
    · simp only [hupd, Bool.false_eq_true, if_false]
      show applyStmts ts [Stmt.insertOrIgnore t (r.map Prod.fst) (r.map Prod.snd),
        Stmt.updateSet t (r.filter (fun p => !(isIdCol p.fst))) (getId r)]
        = Except.ok (setTable ts t (upsertMergeRow tbl r))
      unfold applyStmts
      rw [hinsert]
      unfold applyStmts
      unfold applyStmt
      dsimp only
      rw [getTable_setTable_self ts t { tbl with rows := tbl.rows ++ [r] }]
      dsimp only
      rw [if_pos (show (((r.filter (fun p => !(isIdCol p.fst))).all fun p =>
            hasColumn { tbl with rows := tbl.rows ++ [r] } p.fst) &&
            hasColumn { tbl with rows := tbl.rows ++ [r] } "id") = true from by
        have h1 : ((r.filter (fun p => !(isIdCol p.fst))).all fun p =>
            hasColumn { tbl with rows := tbl.rows ++ [r] } p.fst) = true := hupdcols
        have h2 : hasColumn { tbl with rows := tbl.rows ++ [r] } "id" = true := hidcol
        rw [h1, h2]
        rfl)]
      unfold applyStmts
      have hrows : (tbl.rows ++ [r]).map (fun row =>
          if sqlEq (rowVal row "id") (getId r)
          then setProps row (r.filter (fun p => !(isIdCol p.fst))) else row)
          = tbl.rows ++ [r] := by
        rw [List.map_append]
        have h1 : tbl.rows.map (fun row =>
            if sqlEq (rowVal row "id") (getId r)
            then setProps row (r.filter (fun p => !(isIdCol p.fst))) else row)
            = tbl.rows := by
          rw [show tbl.rows.map (fun row =>
              if sqlEq (rowVal row "id") (getId r)
              then setProps row (r.filter (fun p => !(isIdCol p.fst))) else row)
              = tbl.rows.map id from
            List.map_congr_left (fun row hrow => by
              have := hall row hrow
              simp only [Bool.not_eq_true] at this
              rw [if_neg (by rw [this]; exact Bool.false_ne_true)]
              rfl)]
          exact List.map_id tbl.rows
        have h2 : [r].map (fun row =>
            if sqlEq (rowVal row "id") (getId r)
            then setProps row (r.filter (fun p => !(isIdCol p.fst))) else row)
            = [r] := by
          simp only [List.map_cons, List.map_nil]
          rw [if_pos (by
            show sqlEq (rowVal r "id") (getId r) = true
            exact sqlEq_self (getId r) hnn)]
          rw [setProps_sub_self r _ hndr (fun p hp => List.mem_of_mem_filter hp)]
        rw [h1, h2]
      rw [hrows]
      rw [show setTable (setTable ts t { tbl with rows := tbl.rows ++ [r] }) t
            { tbl with rows := tbl.rows ++ [r] }
          = setTable ts t { tbl with rows := tbl.rows ++ [r] } from
        assocSet_assocSet ts t _ _]
      unfold upsertMergeRow
      rw [if_neg hmem]

theorem getTable_setTable_ne (ts : List (String × Table)) (n u : String) (t : Table)
    (h : ¬ u = n) : getTable (setTable ts n t) u = getTable ts u :=
  assocGet_assocSet_ne ts n u t h

theorem upsertMergeRow_columns (tbl : Table) (r : Record) :
    (upsertMergeRow tbl r).columns = tbl.columns := by
  unfold upsertMergeRow
  split
  · rfl
  · rfl

theorem upsertMergeList_cons_some (ts : List (String × Table)) (t : String)
    (r : Record) (rest : List (Option Record)) (tbl : Table)
    (htbl : getTable ts t = some tbl) :
    upsertMergeList ts t (some r :: rest)
      = upsertMergeList (setTable ts t (upsertMergeRow tbl r)) t rest := by
  conv_lhs => rw [upsertMergeList]
  rw [htbl]

/-- Folding `_upsert`'s statement lists over a record array equals folding
the spec's insert-or-update merge. -/
theorem applyStmts_flatten_merge (t : String) (rs : List (Option Record)) :
    ∀ (ts : List (String × Table)) (tbl : Table),
      getTable ts t = some tbl →
      (ts.map Prod.fst).Nodup →
      (∀ r, some r ∈ rs → (r.map Prod.fst).Nodup ∧ isValidId (getId r) = true ∧
        ∀ c ∈ r.map Prod.fst, hasColumn tbl c = true) →
      applyStmts ts (List.flatten (rs.map (fun r? =>
        match r? with
        | Option.none => []
        | some r => upsertStatements t r)))
        = Except.ok (upsertMergeList ts t rs) := by
  induction rs with
  | nil =>
    intro ts tbl _ _ _
    rfl
  | cons r? rest ih =>
    intro ts tbl htbl hnd H
    cases r? with
    | none =>
      rw [List.map_cons, List.flatten_cons, List.nil_append]
      exact ih ts tbl htbl hnd (fun r hr => H r (List.mem_cons_of_mem _ hr))
    | some r =>
      rw [List.map_cons, List.flatten_cons]
      rw [applyStmts_append]
      obtain ⟨h1, h2, h3⟩ := H r (List.mem_cons_self _ _)
      rw [applyStmts_upsertStatements ts t r tbl htbl hnd h1 h2 h3]
      dsimp only
      have htbl' : getTable (setTable ts t (upsertMergeRow tbl r)) t
          = some (upsertMergeRow tbl r) := getTable_setTable_self ts t _
      have hnd' : ((setTable ts t (upsertMergeRow tbl r)).map Prod.fst).Nodup :=
        assocSet_keys_nodup ts t (upsertMergeRow tbl r) hnd
      have H' : ∀ r2, some r2 ∈ rest →
          (r2.map Prod.fst).Nodup ∧ isValidId (getId r2) = true ∧
          ∀ c ∈ r2.map Prod.fst, hasColumn (upsertMergeRow tbl r) c = true := by
        intro r2 hr2
        obtain ⟨a, b, c⟩ := H r2 (List.mem_cons_of_mem _ hr2)
        refine ⟨a, b, fun col hcol => ?_⟩
        unfold hasColumn
        rw [upsertMergeRow_columns tbl r]
        exact c col hcol
      rw [ih (setTable ts t (upsertMergeRow tbl r)) (upsertMergeRow tbl r) htbl' hnd' H']
      rw [upsertMergeList_cons_some ts t r rest tbl htbl]

/-- The merge places a row carrying exactly the supplied column values. -/
theorem upsertMergeRow_row_values (tbl : Table) (r : Record)
    (hndr : (r.map Prod.fst).Nodup) (hid : isValidId (getId r) = true) :
    ∃ row ∈ (upsertMergeRow tbl r).rows, ∀ kv ∈ r, rowVal row kv.fst = kv.snd := by
  have hnn : ¬ getId r = Value.vNull := isValidId_ne_null _ hid
  have hfilterkeys : ∀ p ∈ r.filter (fun p => !(isIdCol p.fst)), ¬ p.fst = "id" := by
    intro p hp hc
    have := (List.mem_filter.mp hp).2
    rw [hc] at this
    simp [isIdCol] at this
  unfold upsertMergeRow
  by_cases hmem : (tbl.rows.any fun row => sqlEq (rowVal row "id") (getId r)) = true
  · rw [if_pos hmem]
    obtain ⟨row0, hrow0, hsq⟩ := List.any_eq_true.mp hmem
    refine ⟨setProps row0 (r.filter (fun p => !(isIdCol p.fst))), ?_, ?_⟩
    · exact List.mem_map.mpr ⟨row0, hrow0, by rw [if_pos hsq]⟩
    · intro kv hkv
      by_cases hkid : isIdCol kv.fst = true
      · have hkeq : kv.fst = "id" := by simpa [isIdCol] using hkid
        have hval : getProp r "id" = some kv.snd := by
          rw [← hkeq]
          exact getProp_of_mem_nodup r kv.fst kv.snd hkv hndr
        have hvid : kv.snd = getId r := by
          unfold getId rowVal
          rw [hval]
          rfl
        unfold rowVal
        rw [hkeq, getProp_setProps_not_key row0 _ "id" hfilterkeys]
        have : rowVal row0 "id" = getId r := sqlEq_eq _ _ hsq
        unfold rowVal at this
        rw [this, hvid]
      · have hkvmem : kv ∈ r.filter (fun p => !(isIdCol p.fst)) :=
          List.mem_filter.mpr ⟨hkv, by
            cases hb : isIdCol kv.fst with
            | true => exact absurd hb hkid
            | false => rfl⟩
        have hndf : ((r.filter (fun p => !(isIdCol p.fst))).map Prod.fst).Nodup :=
          ((List.filter_sublist r).map Prod.fst).nodup hndr
        unfold rowVal
        rw [show getProp (setProps row0 (r.filter (fun p => !(isIdCol p.fst)))) kv.fst
              = some kv.snd from by
          rw [show kv = (kv.fst, kv.snd) from rfl] at hkvmem
          exact getProp_setProps_mem row0 _ kv.fst kv.snd hndf hkvmem]
        rfl
  · rw [if_neg hmem]
    refine ⟨r, List.mem_append_right _ (List.mem_singleton.mpr rfl), ?_⟩
    intro kv hkv
    unfold rowVal
    rw [getProp_of_mem_nodup r kv.fst kv.snd (by
      rw [show kv = (kv.fst, kv.snd) from rfl] at hkv
      exact hkv) hndr]
    rfl

/-- The merge never duplicates a primary key. -/
theorem upsertMergeRow_uniq (tbl : Table) (r : Record)
    (_hid : isValidId (getId r) = true) (h : IdsUnique tbl.rows) :
    IdsUnique (upsertMergeRow tbl r).rows := by
  have hfilterkeys : ∀ p ∈ r.filter (fun p => !(isIdCol p.fst)), ¬ p.fst = "id" := by
    intro p hp hc
    have := (List.mem_filter.mp hp).2
    rw [hc] at this
    simp [isIdCol] at this
  unfold upsertMergeRow
  by_cases hmem : (tbl.rows.any fun row => sqlEq (rowVal row "id") (getId r)) = true
  · rw [if_pos hmem]
    apply List.Pairwise.map
    · intro a b hab
      have hpres : ∀ row : Record,
          rowVal (if sqlEq (rowVal row "id") (getId r)
            then setProps row (r.filter (fun p => !(isIdCol p.fst)))
            else row) "id" = rowVal row "id" := by
        intro row
        by_cases hs : sqlEq (rowVal row "id") (getId r) = true
        · rw [if_pos hs]
          unfold rowVal
          rw [getProp_setProps_not_key row _ "id" hfilterkeys]
        · rw [if_neg hs]
      rw [hpres a, hpres b]
      exact hab
    · exact h
  · rw [if_neg hmem]
    have hmemf : (tbl.rows.any fun row => sqlEq (rowVal row "id") (getId r)) = false := by
      cases hb : (tbl.rows.any fun row => sqlEq (rowVal row "id") (getId r)) with
      | true => exact absurd hb hmem
      | false => rfl
    have hall := List.any_eq_false.mp hmemf
    rw [IdsUnique, List.pairwise_append]
    refine ⟨h, List.pairwise_singleton _ _, ?_⟩
    intro a ha b hb
    rw [List.mem_singleton.mp hb]
    have := hall a ha
    cases hs : sqlEq (rowVal a "id") (getId r) with
    | true => exact absurd hs this
    | false => exact hs

/-- The whole `upsert` of a record array over well-formed records succeeds
and equals the spec-side merge fold. -/
theorem upsert_many_eq_merge (st : Store) (t : String) (rs : List (Option Record))
    (tbl : Table) (cd : List (String × String))
    (ht : ¬ t = "")
    (hdef : getTableDefinition st.defs t = some cd)
    (htbl : getTable st.tables t = some tbl)
    (hnd : (st.tables.map Prod.fst).Nodup)
    (H : ∀ r, some r ∈ rs → (r.map Prod.fst).Nodup ∧ isValidId (getId r) = true ∧
      ∀ c ∈ r.map Prod.fst, hasColumn tbl c = true) :
    st.upsert t (UpsertData.many rs)
      = Except.ok { st with tables := upsertMergeList st.tables t rs } := by
  have htq : (t == "") = false := by simp [ht]
  unfold Store.upsert upsertApply
  rw [htq]
  simp only [Bool.false_eq_true, if_false]
  rw [hdef]
  dsimp only
  rw [show (rs.all fun r? =>
      match r? with
      | Option.none => true
      | some r => isValidId (getId r)) = true from
    List.all_eq_true.mpr (fun r? hr? => by
      cases r? with
      | none => rfl
      | some r => exact (H r hr?).2.1)]
  simp only [if_true, jsObjectLength, jsUndefGreaterThan, Bool.false_eq_true, if_false]
  rw [applyStmts_flatten_merge t rs st.tables tbl htbl hnd H]

/-! ### `upsert` is insert-or-update on the primary key (C5) -/

/-- **C5** — the `upsert` contract.  Conjunct 1: a null/undefined entry of a
record array is skipped.  Conjunct 2: a single record behaves as a one-record
array.  Conjunct 3: a non-null record with an invalid id makes the call fail.
Conjunct 4 (refinement): on well-formed records the whole call succeeds and
equals the spec-side `upsertMergeList` — the in-order fold of insert-or-update
on the primary key — executed as one transaction on the store (an error would
carry no state at all).  Conjuncts 5 and 6 spell out the insert-or-update
effect per record: a row with the supplied column values exists in the merged
table, and the merge never introduces a duplicate primary key. -/
theorem upsert_contract (st : Store) (t : String) (rs : List (Option Record))
    (tbl : Table) (cd : List (String × String))
    (ht : ¬ t = "")
    (hdef : getTableDefinition st.defs t = some cd)
    (htbl : getTable st.tables t = some tbl)
    (hnd : (st.tables.map Prod.fst).Nodup)
    (H : ∀ r, some r ∈ rs → (r.map Prod.fst).Nodup ∧ isValidId (getId r) = true ∧
      ∀ c ∈ r.map Prod.fst, hasColumn tbl c = true) :
    (st.upsert t (UpsertData.many (Option.none :: rs))
        = st.upsert t (UpsertData.many rs))
    ∧ (∀ r, st.upsert t (UpsertData.single r)
        = st.upsert t (UpsertData.many [some r]))
    ∧ (∀ r, isValidId (getId r) = false →
        exceptIsOk (st.upsert t (UpsertData.single r)) = false)
    ∧ st.upsert t (UpsertData.many rs)
        = Except.ok { st with tables := upsertMergeList st.tables t rs }
    ∧ (∀ r, (r.map Prod.fst).Nodup → isValidId (getId r) = true →
        ∃ row ∈ (upsertMergeRow tbl r).rows, ∀ kv ∈ r, rowVal row kv.fst = kv.snd)
    ∧ (∀ r, isValidId (getId r) = true → IdsUnique tbl.rows →
        IdsUnique (upsertMergeRow tbl r).rows) := by
  have htq : (t == "") = false := by simp [ht]
  refine ⟨?_, ?_, ?_, ?_, ?_, ?_⟩
  · unfold Store.upsert upsertApply
    rw [htq]
    simp only [Bool.false_eq_true, if_false]
    rw [hdef]
    dsimp only
    rw [List.all_cons]
    dsimp only
    rw [Bool.true_and, List.map_cons, List.flatten_cons]
    dsimp only
    rw [List.nil_append]
  · intro r
    rfl
  · intro r hrv
    unfold Store.upsert upsertApply
    rw [htq]
    simp only [Bool.false_eq_true, if_false]
    rw [hdef]
    dsimp only
    rw [List.all_cons]
    dsimp only
    rw [hrv]
    rfl
  · exact upsert_many_eq_merge st t rs tbl cd ht hdef htbl hnd H
  · intro r hndr hidr
    exact upsertMergeRow_row_values tbl r hndr hidr
  · intro r hidr huniq
    exact upsertMergeRow_uniq tbl r hidr huniq

/-- Witness for C5 over the seeded store: the skipped null entry, single
equals one-element array, an id-less record fails, inserting the fresh row
`b` equals the spec merge, row `b` carries the supplied values afterwards,
and the primary keys stay duplicate-free. -/
theorem upsert_contract_witness :
    (seededStore.upsert "t" (UpsertData.many (Option.none :: [some recB]))
        = seededStore.upsert "t" (UpsertData.many [some recB]))
    ∧ (seededStore.upsert "t" (UpsertData.single recB)
        = seededStore.upsert "t" (UpsertData.many [some recB]))
    ∧ exceptIsOk (seededStore.upsert "t" (UpsertData.single [("v", Value.vInt 3)])) = false
    ∧ seededStore.upsert "t" (UpsertData.many [some recB])
        = Except.ok { seededStore with
            tables := upsertMergeList seededStore.tables "t" [some recB] }
    ∧ (∃ row ∈ (upsertMergeRow seededTbl recB).rows,
        ∀ kv ∈ recB, rowVal row kv.fst = kv.snd)
    ∧ IdsUnique (upsertMergeRow seededTbl recB).rows := by
  have h := upsert_contract seededStore "t" [some recB] seededTbl
    [("id", "string"), ("v", "integer")]
    (by decide) (by decide) (by decide) (by decide)
    (fun r hr => by
      have hreq : r = recB := Option.some.inj (List.mem_singleton.mp hr)
      subst hreq
      exact ⟨by decide, by decide, by decide⟩)
  exact ⟨h.1, h.2.1 recB, h.2.2.1 [("v", Value.vInt 3)] (by decide), h.2.2.2.1,
    h.2.2.2.2.1 recB (by decide) (by decide),
    h.2.2.2.2.2 recB (by decide) (List.pairwise_singleton _ recA)⟩

/-! ### `upsert` of an existing id is a partial update (C10) -/

/-- **C10** — upsert of a record whose id matches an existing row performs a
partial update.  Conjunct 1: a record whose only property is `id` generates
the lone `INSERT OR IGNORE` statement and no `UPDATE` statement.  Conjunct 2:
upserting such a record over an existing row leaves the entire store exactly
unchanged.  Conjunct 3: columns not supplied by the record keep their stored
value under the update's `SET` list.  Conjunct 4: every supplied non-id
column is overwritten with the supplied value. -/
theorem upsert_partial_update (st : Store) (t : String) (v : Value) (tbl : Table)
    (cd : List (String × String)) (r : Record)
    (ht : ¬ t = "")
    (hdef : getTableDefinition st.defs t = some cd)
    (htbl : getTable st.tables t = some tbl)
    (hnd : (st.tables.map Prod.fst).Nodup)
    (hidv : isValidId v = true)
    (hidcol : hasColumn tbl "id" = true)
    (hmem : (tbl.rows.any fun row => sqlEq (rowVal row "id") v) = true) :
    upsertStatements t [("id", v)] = [Stmt.insertOrIgnore t ["id"] [v]]
    ∧ st.upsert t (UpsertData.single [("id", v)]) = Except.ok st
    ∧ (∀ row c, ((r.filter (fun p => !(isIdCol p.fst))).all
          (fun p => !(p.fst == c))) = true →
        rowVal (setProps row (r.filter (fun p => !(isIdCol p.fst)))) c
          = rowVal row c)
    ∧ (∀ row kv, kv ∈ r → isIdCol kv.fst = false → (r.map Prod.fst).Nodup →
        rowVal (setProps row (r.filter (fun p => !(isIdCol p.fst)))) kv.fst
          = kv.snd) := by
  refine ⟨rfl, ?_, ?_, ?_⟩
  · have hH : ∀ r0, some r0 ∈ [some [(("id" : String), v)]] →
        (r0.map Prod.fst).Nodup ∧ isValidId (getId r0) = true ∧
        ∀ c ∈ r0.map Prod.fst, hasColumn tbl c = true := by
      intro r0 hr0
      have : r0 = [("id", v)] := Option.some.inj (List.mem_singleton.mp hr0)
      subst this
      refine ⟨by simp, ?_, ?_⟩
      · show isValidId ((getProp [("id", v)] "id").getD Value.vNull) = true
        rw [show getProp [(("id" : String), v)] "id" = some v from rfl]
        exact hidv
      · intro c hc
        simp only [List.map_cons, List.map_nil, List.mem_singleton] at hc
        rw [hc]
        exact hidcol
    rw [show st.upsert t (UpsertData.single [("id", v)])
          = st.upsert t (UpsertData.many [some [("id", v)]]) from rfl]
    rw [upsert_many_eq_merge st t [some [("id", v)]] tbl cd ht hdef htbl hnd hH]
    have hmerge : upsertMergeRow tbl [("id", v)] = tbl := by
      unfold upsertMergeRow
      rw [if_pos (show (tbl.rows.any fun row =>
          sqlEq (rowVal row "id") (getId [("id", v)])) = true from hmem)]
      rw [show ([(("id" : String), v)].filter (fun p => !(isIdCol p.fst))) = [] from rfl]
      rw [show (fun row => if sqlEq (rowVal row "id") (getId [(("id" : String), v)])
            then setProps row [] else row) = fun row : Record => row from
        funext (fun row => by
          rw [show setProps row [] = row from rfl, ite_self])]
      rw [show tbl.rows.map (fun row : Record => row) = tbl.rows from by
        rw [show (fun row : Record => row) = @id Record from rfl, List.map_id]]
    rw [show upsertMergeList st.tables t [some [("id", v)]]
          = setTable st.tables t (upsertMergeRow tbl [("id", v)]) from by
      rw [upsertMergeList_cons_some st.tables t [("id", v)] [] tbl htbl]
      rfl]
    rw [hmerge]
    rw [show setTable st.tables t tbl = st.tables from
      assocSet_get_self st.tables t tbl hnd htbl]
  · intro row c hc
    unfold rowVal
    rw [getProp_setProps_not_key row _ c (fun p hp => by
      have := List.all_eq_true.mp hc p hp
      simp only [Bool.not_eq_eq_eq_not, Bool.not_true] at this
      rw [beq_eq_false_iff_ne] at this
      exact this)]
  · intro row kv hkv hkid hndr
    have hkvmem : kv ∈ r.filter (fun p => !(isIdCol p.fst)) :=
      List.mem_filter.mpr ⟨hkv, by rw [hkid]; rfl⟩
    have hndf : ((r.filter (fun p => !(isIdCol p.fst))).map Prod.fst).Nodup :=
      ((List.filter_sublist r).map Prod.fst).nodup hndr
    unfold rowVal
    rw [show getProp (setProps row (r.filter (fun p => !(isIdCol p.fst)))) kv.fst
          = some kv.snd from by
      rw [show kv = (kv.fst, kv.snd) from rfl] at hkvmem
      exact getProp_setProps_mem row _ kv.fst kv.snd hndf hkvmem]
    rfl

/-- Witness for C10: upserting `{id:'a'}` over the seeded store changes
nothing; upserting `{id:'a', v:9}` into a row `{id:'a', v:1, w:5}` keeps `w`
and overwrites `v`. -/
theorem upsert_partial_update_witness :
    upsertStatements "t" [("id", Value.vStr "a")]
        = [Stmt.insertOrIgnore "t" ["id"] [Value.vStr "a"]]
    ∧ seededStore.upsert "t" (UpsertData.single [("id", Value.vStr "a")])
        = Except.ok seededStore
    ∧ rowVal (setProps [("id", Value.vStr "a"), ("v", Value.vInt 1), ("w", Value.vInt 5)]
        ([("id", Value.vStr "a"), ("v", Value.vInt 9)].filter
          (fun p => !(isIdCol p.fst)))) "w" = Value.vInt 5
    ∧ rowVal (setProps [("id", Value.vStr "a"), ("v", Value.vInt 1), ("w", Value.vInt 5)]
        ([("id", Value.vStr "a"), ("v", Value.vInt 9)].filter
          (fun p => !(isIdCol p.fst)))) "v" = Value.vInt 9 := by
  have h := upsert_partial_update seededStore "t" (Value.vStr "a") seededTbl
    [("id", "string"), ("v", "integer")]
    [("id", Value.vStr "a"), ("v", Value.vInt 9)]
    (by decide) (by decide) (by decide) (by decide) (by decide) (by decide) (by decide)
  exact ⟨h.1, h.2.1,
    h.2.2.1 [("id", Value.vStr "a"), ("v", Value.vInt 1), ("w", Value.vInt 5)] "w"
      (by decide),
    h.2.2.2 [("id", Value.vStr "a"), ("v", Value.vInt 1), ("w", Value.vInt 5)]
      ("v", Value.vInt 9) (by decide) (by decide) (by decide)⟩

/-! ### `defineTable` is additive (C8) -/

theorem validTableDefinition_id (d : TableDefinition)
    (hv : validTableDefinition d = true) :
    ∃ p, d.columnDefinitions.find? (fun p => isIdCol p.fst) = some p
      ∧ p.fst = "id" := by
  unfold validTableDefinition at hv
  cases hfind : d.columnDefinitions.find? (fun p => isIdCol p.fst) with
  | none =>
    rw [hfind] at hv
    simp at hv
  | some p =>
    refine ⟨p, rfl, ?_⟩
    have hp := List.find?_some hfind
    simpa [isIdCol] using hp

/-- **C8** — `defineTable` is additive.  If the named table exists, the call
succeeds and the resulting table keeps every existing column (same names and
types, in place — the old column list is a prefix of the new one), keeps
every row's stored data and the primary-key marker untouched, and appends
exactly those defined columns whose (case-insensitively compared) name is
missing; no other table of the store changes.  If the table is absent it is
created with the defined columns and the `id` column as primary key. -/
theorem defineTable_additive (st : Store) (d : TableDefinition)
    (hv : validTableDefinition d = true) :
    (∀ tbl, getTable st.tables d.name = some tbl →
      ∃ st', st.defineTable d = Except.ok st'
        ∧ getTable st'.tables d.name = some (addMissingColumnsApply tbl d)
        ∧ (addMissingColumnsApply tbl d).rows = tbl.rows
        ∧ (addMissingColumnsApply tbl d).pkColumn = tbl.pkColumn
        ∧ (addMissingColumnsApply tbl d).columns.take tbl.columns.length
            = tbl.columns
        ∧ (addMissingColumnsApply tbl d).columns
            = tbl.columns ++ d.columnDefinitions.filter (fun p =>
                !(tbl.columns.any (fun q => lowerStr q.fst == lowerStr p.fst)))
        ∧ ∀ u, ¬ u = d.name → getTable st'.tables u = getTable st.tables u)
    ∧ (getTable st.tables d.name = Option.none →
      ∃ st', st.defineTable d = Except.ok st'
        ∧ getTable st'.tables d.name = some
            { columns := d.columnDefinitions.map (fun p => (p.fst, getSqliteType p.snd)),
              pkColumn := some "id",
              rows := [] }
        ∧ ∀ u, ¬ u = d.name → getTable st'.tables u = getTable st.tables u) := by
  constructor
  · intro tbl htbl
    refine ⟨{ tables := setTable st.tables d.name (addMissingColumnsApply tbl d),
              defs := addTableDefinition st.defs d.name d.columnDefinitions },
            ?_, ?_, rfl, rfl, ?_, rfl, ?_⟩
    · simp [Store.defineTable, hv, htbl]
    · exact getTable_setTable_self st.tables d.name (addMissingColumnsApply tbl d)
    · simp [addMissingColumnsApply, List.take_left]
    · intro u hu
      exact getTable_setTable_ne st.tables d.name u (addMissingColumnsApply tbl d) hu
  · intro htbl
    obtain ⟨p, hfind, hid⟩ := validTableDefinition_id d hv
    refine ⟨{ tables := createTableApply st.tables d,
              defs := addTableDefinition st.defs d.name d.columnDefinitions },
            ?_, ?_, ?_⟩
    · simp [Store.defineTable, hv, htbl]
    · unfold createTableApply
      rw [hfind]
      have hmap : Option.map Prod.fst (some p) = some "id" := by
        simp [hid]
      rw [hmap]
      exact getTable_setTable_self st.tables d.name _
    · intro u hu
      unfold createTableApply
      exact getTable_setTable_ne st.tables d.name u _ hu

/-- Witness for C8: redefining `t` over the seeded store with an extra
column `w` (and `v` re-spelt `V`, which NOCASE matching treats as present)
appends only `w`, keeps the rows and old columns, and leaves the operation
table alone; defining a fresh table `u` creates it empty with `id` as
primary key. -/
theorem defineTable_additive_witness :
    (∃ st', seededStore.defineTable
          { name := "t",
            columnDefinitions := [("id", "string"), ("V", "integer"), ("w", "string")] }
        = Except.ok st'
        ∧ getTable st'.tables "t" = some
            { columns := [("id", "TEXT"), ("v", "INTEGER"), ("w", "string")],
              pkColumn := some "id", rows := [recA] }
        ∧ getTable st'.tables opsTableName = getTable seededStore.tables opsTableName)
    ∧ (∃ st', seededStore.defineTable
          { name := "u", columnDefinitions := [("id", "string")] }
        = Except.ok st'
        ∧ getTable st'.tables "u" = some
            { columns := [("id", "TEXT")], pkColumn := some "id", rows := [] }
        ∧ getTable st'.tables "t" = getTable seededStore.tables "t") := by
  constructor
  · obtain ⟨st', hdef, hget, _, _, _, _, hother⟩ := (defineTable_additive seededStore
      { name := "t",
        columnDefinitions := [("id", "string"), ("V", "integer"), ("w", "string")] }
      (by decide)).1 seededTbl (by decide)
    refine ⟨st', hdef, ?_, hother opsTableName (by decide)⟩
    rw [hget]
    decide
  · obtain ⟨st', hdef, hget, hother⟩ := (defineTable_additive seededStore
      { name := "u", columnDefinitions := [("id", "string")] }
      (by decide)).2 (by decide)
    exact ⟨st', hdef, hget, hother "t" (by decide)⟩

/-! ### Delete by query (C9) -/

theorem projectRecord_nil (r : Record) : projectRecord [] r = r := by
  simp [projectRecord]

/-- **C9** — `del` with a query resolves the query to the set of ids of the
matching rows while ignoring any projection the caller supplied (the first
conjunct: a query with any `selections` list behaves exactly as the same
query with the projection cleared), and then deletes exactly those ids in one
transaction: the target table afterwards holds precisely the rows the filter
did not match, and no other table changes.  Requires the target table's rows
to carry non-null, pairwise-distinct ids (the primary-key invariant). -/
theorem delUsingQuery_behavior (st : Store) (q : Query) (tbl : Table)
    (ht : ¬ q.table = "")
    (hdef : (getTableDefinition st.defs q.table).isSome = true)
    (htbl : getTable st.tables q.table = some tbl)
    (hidcol : hasColumn tbl "id" = true)
    (hnn : ∀ row ∈ tbl.rows, ¬ rowVal row "id" = Value.vNull)
    (huniq : tbl.rows.Pairwise
      (fun r1 r2 => sqlEq (rowVal r1 "id") (rowVal r2 "id") = false)) :
    (∀ sel, st.delUsingQuery { q with selections := sel }
        = st.delUsingQuery { q with selections := [] })
    ∧ (q.selections = [] →
      ∃ st', st.delUsingQuery q = Except.ok st'
        ∧ getTable st'.tables q.table
            = some { tbl with rows := tbl.rows.filter (fun row => !(q.filter row)) }
        ∧ ∀ u, ¬ u = q.table → getTable st'.tables u = getTable st.tables u) := by
  constructor
  · intro sel
    cases sel with
    | nil => rfl
    | cons a l => rfl
  · intro hsel
    obtain ⟨cd, hcd⟩ := Option.isSome_iff_exists.mp hdef
    -- the records `read` returns: the filtered rows themselves
    have hmapid : (tbl.rows.filter q.filter).map (fun r => projectRecord q.selections r)
        = tbl.rows.filter q.filter := by
      rw [hsel]
      exact List.map_congr_left (fun r _ => projectRecord_nil r) |>.trans (List.map_id _)
    -- the collected ids: every one non-null, so the null filter keeps them all
    have hids : ((tbl.rows.filter q.filter).map (fun r => rowVal r "id")).filter
        (fun v => !(v == Value.vNull))
        = (tbl.rows.filter q.filter).map (fun r => rowVal r "id") := by
      apply List.filter_eq_self.mpr
      intro v hv
      obtain ⟨row, hrow, rfl⟩ := List.mem_map.mp hv
      have := hnn row (List.mem_filter.mp hrow).1
      simp [this]
    -- membership in the id set decides the filter, by the primary-key invariant
    have key : ∀ row ∈ tbl.rows,
        (!(((tbl.rows.filter q.filter).map (fun r => rowVal r "id")).any
            (fun i => sqlEq (rowVal row "id") i)))
          = (!(q.filter row)) := by
      intro row hrow
      congr 1
      cases hqf : q.filter row with
      | true =>
        apply List.any_eq_true.mpr
        exact ⟨rowVal row "id",
          List.mem_map.mpr ⟨row, List.mem_filter.mpr ⟨hrow, hqf⟩, rfl⟩,
          sqlEq_self _ (hnn row hrow)⟩
      | false =>
        apply List.any_eq_false.mpr
        intro i hi hsq
        obtain ⟨row', hrow', rfl⟩ := List.mem_map.mp hi
        obtain ⟨hrow'mem, hqf'⟩ := List.mem_filter.mp hrow'
        by_cases heq : row = row'
        · rw [heq] at hqf
          rw [hqf] at hqf'
          exact Bool.noConfusion hqf'
        · have hsym : Symmetric
              (fun r1 r2 : Record => sqlEq (rowVal r1 "id") (rowVal r2 "id") = false) := by
            intro r1 r2 h12
            rw [sqlEq_symm]
            exact h12
          have hfalse := huniq.forall hsym hrow hrow'mem heq
          rw [hfalse] at hsq
          exact Bool.noConfusion hsq
    refine ⟨{ st with tables := (setTable st.tables q.table
        { tbl with rows := tbl.rows.filter (fun row => !(q.filter row)) }) }, ?_, ?_, ?_⟩
    · unfold Store.delUsingQuery
      rw [hsel]
      simp only [List.isEmpty_nil, if_true]
      unfold Store.read
      rw [hcd, htbl]
      dsimp only
      cases hic : q.includeCount with
      | true =>
        simp only [if_true]
        rw [show (q.table == "") = false from by simp [ht]]
        simp only [Bool.false_eq_true, if_false]
        rw [hmapid, hids]
        unfold applyStmt
        dsimp only
        rw [htbl]
        simp only [hidcol, if_true]
        rw [List.filter_congr key]
      | false =>
        simp only [Bool.false_eq_true, if_false]
        rw [show (q.table == "") = false from by simp [ht]]
        simp only [Bool.false_eq_true, if_false]
        rw [hmapid, hids]
        unfold applyStmt
        dsimp only
        rw [htbl]
        simp only [hidcol, if_true]
        rw [List.filter_congr key]
    · exact getTable_setTable_self st.tables q.table _
    · intro u hu
      exact getTable_setTable_ne st.tables q.table u _ hu

/-- Witness for C9 over a two-row table: deleting by the query `v = 2` with a
projection supplied behaves as with the projection cleared, deletes exactly
row `b`, and leaves the operation table untouched. -/
theorem delUsingQuery_behavior_witness :
    (seededStore2.delUsingQuery { demoQuery with selections := ["v"] }
        = seededStore2.delUsingQuery { demoQuery with selections := [] })
    ∧ ∃ st', seededStore2.delUsingQuery demoQuery = Except.ok st'
        ∧ getTable st'.tables "t" = some
            { columns := [("id", "TEXT"), ("v", "INTEGER")],
              pkColumn := some "id", rows := [recA] }
        ∧ getTable st'.tables opsTableName
            = getTable seededStore2.tables opsTableName := by
  have h := delUsingQuery_behavior seededStore2 demoQuery seededTbl2
    (by decide) (by decide) (by decide) (by decide) (by decide) (by decide)
  constructor
  · exact h.1 ["v"]
  · obtain ⟨st', hdel, hget, hother⟩ := h.2 rfl
    refine ⟨st', hdel, ?_, hother opsTableName (by decide)⟩
    have hget' : getTable st'.tables "t" = some
        { columns := seededTbl2.columns, pkColumn := seededTbl2.pkColumn,
          rows := List.filter (fun row => !demoQuery.filter row) seededTbl2.rows } := hget
    rw [hget']
    decide

/-! ### The 999-column limit (C7) -/

/-- **C7** — the claim fails on the code: a table with more than 999 columns
is *not* rejected at define time (nor anywhere else).  `defineTable` performs
no column-count check at all, and the guard inside `_upsert` reads
`tableDefinition.columnDefinitions.length` — `columnDefinitions` is a plain
JS object, so the access yields `undefined` and `undefined > 999` is `false`,
which makes the guard (and its "cannot be more than 999" throw, the code's
own documented intent) unreachable for every definition whatsoever.
Concretely: a 1000-column definition is accepted by `defineTable`, the table
is created with all 1000 columns, and an upsert into it succeeds. -/
theorem column_limit_not_enforced :
    bigDef.columnDefinitions.length = 1000
    ∧ exceptIsOk (emptyStore.defineTable bigDef) = true
    ∧ ((getTable bigStore.tables "big").map (fun tbl => tbl.columns.length))
        = some 1000
    ∧ exceptIsOk (bigStore.upsert "big"
        (UpsertData.single [("id", Value.vStr "a")])) = true
    ∧ ∀ cd : List (String × String), jsUndefGreaterThan (jsObjectLength cd) 999 = false := by
  refine ⟨by decide, by decide, by decide, by decide, ?_⟩
  intro cd
  rfl

end AzureSync
